import Mathlib

/-!
Shallow embedding of the go-mib-parser repository (SMIv2 MIB parser).

The definitions below translate the Go source:
  * the lexer (`lexer` package: `Lexer.Next`, `skipWhitespaceAndComments`,
    `readString`, `readColonAssign`),
  * the recursive-descent parser and OID resolver
    (`parser` package, final copy in the source: `Parse`, `parseModule`,
    `parseImports`, `parseParentRef`, `parseOidAssignmentInsideBraces`,
    `resolveOidBase`, `parseTypeString`, `parseUntilKeywords`,
    `initBaseOids`, `skipDefinition`, `augmentFromSource` together with
    `stripLineComments`, `removeQuotedStrings`, `removeImportsBlocks`,
    `isReservedName`),
  * OID rendering (`oidToString`) and the exported lookup helpers
    (`GetObjectByName`, `GetNodeOIDByName`, `GetObjectByOID`,
    `GetObjectByOIDString`).

Go maps from names are modelled as association lists with a single entry
per key (insert updates in place, otherwise appends); Go `nil` slices are
the empty list; Go `int` is `Int` (the MIB inputs at issue never overflow);
fallible code returns `Except String`.  Loops that are not structurally
recursive take a fuel argument; the top-level entry points pass a fuel
that is sufficient for the concrete inputs evaluated below, and the
universally quantified theorems are stated for every fuel.
-/

namespace MibSpec

/-! ### Association lists standing in for Go maps -/

/-- First-match lookup in an association list (Go map read `m[k]`). -/
def lookupA {α : Type} (k : String) : List (String × α) → Option α
  | [] => none
  | (k', v) :: rest => if k' = k then some v else lookupA k rest

/-- In-place update if the key is present, else append
(Go map write `m[k] = v`; one entry per key). -/
def insertA {α : Type} (k : String) (v : α) : List (String × α) → List (String × α)
  | [] => [(k, v)]
  | (k', v') :: rest => if k' = k then (k', v) :: rest else (k', v') :: insertA k v rest

/-- Key-membership test (Go `_, ok := m[k]`). -/
def containsKey {α : Type} (k : String) (l : List (String × α)) : Bool :=
  (lookupA k l).isSome

theorem lookupA_insertA {α : Type} (k k' : String) (v : α) (l : List (String × α)) :
    lookupA k (insertA k' v l) = if k' = k then some v else lookupA k l := by
  induction l with
  | nil => simp [insertA, lookupA]
  | cons hd tl ih =>
    obtain ⟨k'', v''⟩ := hd
    unfold insertA
    by_cases h1 : k'' = k'
    · subst h1
      by_cases h2 : k'' = k
      · subst h2; simp [lookupA]
      · simp [lookupA, h2, ih]
    · by_cases h2 : k'' = k
      · subst h2
        have hne : ¬k' = k'' := fun h => h1 h.symm
        simp [lookupA, h1, hne]
      · simp [lookupA, h1, h2, ih]

theorem containsKey_insertA {α : Type} (k k' : String) (v : α) (l : List (String × α)) :
    containsKey k (insertA k' v l) = (decide (k' = k) || containsKey k l) := by
  by_cases h : k' = k <;> simp [containsKey, lookupA_insertA, h]

theorem containsKey_insertA_self {α : Type} (k : String) (v : α) (l : List (String × α)) :
    containsKey k (insertA k v l) = true := by
  simp [containsKey_insertA]

theorem containsKey_insertA_of {α : Type} {k : String} {l : List (String × α)}
    (k' : String) (v : α) (h : containsKey k l = true) :
    containsKey k (insertA k' v l) = true := by
  simp [containsKey_insertA, h]

/-! ### Tokens (Go `lexer.Token`) -/

inductive TokKind where
  | eof | ident | number | str
  | lbrace | rbrace | lparen | rparen
  | comma | dot | semicolon | colonColonEq | assignEq
  deriving DecidableEq

/-- Go `lexer.Token`: kind, text, integer value (numbers), source position. -/
structure Token where
  kind : TokKind
  text : String
  int : Int
  line : Nat
  col : Nat
  deriving DecidableEq

/-- The token `Lexer.Next` returns past the end of input (`TokenEOF`). -/
def eofAt (line col : Nat) : Token := ⟨.eof, "", 0, line, col⟩

/-! ### Lexer (Go `lexer` package)

`unicode.IsLetter`/`unicode.IsDigit` are modelled by their ASCII
restrictions (`Char.isAlpha`/`Char.isDigit`); all inputs considered in
this development are ASCII, where the two agree. -/

/-- Go `isIdentStart` (a letter). -/
def isIdentStart (c : Char) : Bool := c.isAlpha

/-- Go `isIdent` (letter, digit or hyphen). -/
def isIdentCont (c : Char) : Bool := c.isAlpha || c.isDigit || c = '-'

/-- Lexer state: remaining input and the 1-based line/column of the next
character (Go `Lexer.pos/line/col`). -/
structure LexSt where
  inp : List Char
  line : Nat
  col : Nat
  deriving DecidableEq

/-- Go `Lexer.advance`: consume one character, updating line/column. -/
def lexAdv (s : LexSt) : LexSt :=
  match s.inp with
  | [] => s
  | c :: rest =>
    if c = '\n' then ⟨rest, s.line + 1, 1⟩ else ⟨rest, s.line, s.col + 1⟩

/-- Go `skipWhitespaceAndComments`: drop whitespace and `--` line comments. -/
def skipWsComments : Nat → LexSt → LexSt
  | 0, s => s
  | fuel + 1, s =>
    match s.inp with
    | [] => s
    | c :: rest =>
      if c = ' ' || c = '\t' || c = '\r' || c = '\n' then
        skipWsComments fuel (lexAdv s)
      else if c = '-' then
        match rest with
        | '-' :: _ =>
          skipWsComments fuel (skipToEol fuel (lexAdv (lexAdv s)))
        | _ => s
      else s
where
  /-- consume until the newline (the newline itself is left for the
  whitespace loop). -/
  skipToEol : Nat → LexSt → LexSt
    | 0, s => s
    | fuel + 1, s =>
      match s.inp with
      | [] => s
      | c :: _ => if c = '\n' then s else skipToEol fuel (lexAdv s)

/-- Identifier scan: consume `isIdentCont` characters, accumulating text. -/
def scanIdent : Nat → LexSt → List Char → (List Char × LexSt)
  | 0, s, acc => (acc.reverse, s)
  | fuel + 1, s, acc =>
    match s.inp with
    | [] => (acc.reverse, s)
    | c :: _ =>
      if isIdentCont c then scanIdent fuel (lexAdv s) (c :: acc)
      else (acc.reverse, s)

/-- Number scan (Go accumulates `n = n*10 + digit` into an `int`). -/
def scanNumber : Nat → LexSt → Int → (Int × LexSt)
  | 0, s, n => (n, s)
  | fuel + 1, s, n =>
    match s.inp with
    | [] => (n, s)
    | c :: _ =>
      if c.isDigit then scanNumber fuel (lexAdv s) (n * 10 + (Int.ofNat c.toNat - 48))
      else (n, s)

/-- Go `readString` body after the opening quote: collect characters until
the closing quote; a backslash takes the next character verbatim. -/
def scanString : Nat → LexSt → List Char → (List Char × LexSt)
  | 0, s, acc => (acc.reverse, s)
  | fuel + 1, s, acc =>
    match s.inp with
    | [] => (acc.reverse, s)
    | c :: _ =>
      if c = '"' then (acc.reverse, lexAdv s)
      else if c = '\\' then
        let s1 := lexAdv s
        match s1.inp with
        | [] => (acc.reverse, s1)
        | c2 :: _ => scanString fuel (lexAdv s1) (c2 :: acc)
      else scanString fuel (lexAdv s) (c :: acc)

/-- Go `Lexer.mk`: punctuation tokens carry the position reached after
consuming their characters. -/
def mkTok (s : LexSt) (k : TokKind) (text : String) : Token :=
  ⟨k, text, 0, s.line, s.col⟩

/-- Go `Lexer.Next`: produce one token and the state after it. -/
def lexNext : Nat → LexSt → (Token × LexSt)
  | 0, s => (eofAt s.line s.col, s)
  | fuel + 1, s0 =>
    let s := skipWsComments (s0.inp.length + 1) s0
    match s.inp with
    | [] => (eofAt s.line s.col, s)
    | c :: rest =>
      if isIdentStart c then
        let (cs, s') := scanIdent (rest.length + 1) (lexAdv s) [c]
        (⟨.ident, ⟨cs⟩, 0, s.line, s.col⟩, s')
      else if c.isDigit then
        let (n, s') := scanNumber (s.inp.length + 1) s 0
        (⟨.number, "", n, s.line, s.col⟩, s')
      else if c = '"' then
        let (cs, s') := scanString (rest.length + 1) (lexAdv s) []
        (⟨.str, ⟨cs⟩, 0, s.line, s.col⟩, s')
      else if c = '\x7b' then (mkTok (lexAdv s) .lbrace ("\x7b"), lexAdv s)
      else if c = '\x7d' then (mkTok (lexAdv s) .rbrace ("\x7d"), lexAdv s)
      else if c = '(' then (mkTok (lexAdv s) .lparen ("("), lexAdv s)
      else if c = ')' then (mkTok (lexAdv s) .rparen (")"), lexAdv s)
      else if c = ',' then (mkTok (lexAdv s) .comma (","), lexAdv s)
      else if c = '.' then (mkTok (lexAdv s) .dot ("."), lexAdv s)
      else if c = ';' then (mkTok (lexAdv s) .semicolon (";"), lexAdv s)
      else if c = ':' then
        -- Go readColonAssign
        let s1 := lexAdv s
        match s1.inp with
        | ':' :: _ =>
          let s2 := lexAdv s1
          (match s2.inp with
           | '=' :: _ => (mkTok (lexAdv s2) .colonColonEq ("::="), lexAdv s2)
           | _ => (mkTok s2 .assignEq ("::"), s2))
        | _ => (mkTok s1 .assignEq (":"), s1)
      else if c = '=' then (mkTok (lexAdv s) .assignEq ("="), lexAdv s)
      else
        -- unknown character: silently dropped, lex again
        lexNext fuel (lexAdv s)

/-- Token stream of the whole input, ending with the `eof` token. -/
def tokenizeFrom : Nat → LexSt → List Token
  | 0, s => [eofAt s.line s.col]
  | fuel + 1, s =>
    let (t, s') := lexNext (s.inp.length + 1) s
    if t.kind = .eof then [t] else t :: tokenizeFrom fuel s'

/-- Tokenize a whole source string (Go `lexer.New` + repeated `Next`). -/
def tokenize (src : String) : List Token :=
  tokenizeFrom (src.data.length + 1) ⟨src.data, 1, 1⟩

/-! ### Decimal rendering (Go `fmt.Sprintf("%d", n)` / `itoa`) -/

/-- The decimal digit characters. -/
def digitChar : Nat → Char
  | 0 => '0' | 1 => '1' | 2 => '2' | 3 => '3' | 4 => '4'
  | 5 => '5' | 6 => '6' | 7 => '7' | 8 => '8' | 9 => '9'
  | _ => '*'

/-- Decimal rendering of a natural number (most significant digit first). -/
def natDecL (n : Nat) : List Char :=
  if n = 0 then ['0'] else (Nat.digits 10 n).reverse.map digitChar

/-- Decimal rendering of an integer, with a leading minus sign when
negative (Go `fmt.Sprintf("%d", n)` and `itoa`). -/
def intDecL (i : Int) : List Char :=
  if i < 0 then '-' :: natDecL i.natAbs else natDecL i.toNat

/-- `intDecL` as a `String`. -/
def intDecStr (i : Int) : String := ⟨intDecL i⟩

/-! ### Parser data model (Go `parser` package IR types) -/

/-- Go `ObjectTypeIR` (field `Syntax` is called `syn` here). -/
structure ObjectTypeIR where
  name : String
  oid : List Int
  syn : String
  access : String
  status : String
  description : String
  index : List String
  deriving DecidableEq

/-- Go `ModuleIdentityIR`. -/
structure ModuleIdentityIR where
  name : String
  oid : List Int
  lastUpdated : String
  organization : String
  contactInfo : String
  description : String
  deriving DecidableEq

/-- Go `ObjectIdentityIR`. -/
structure ObjectIdentityIR where
  name : String
  oid : List Int
  status : String
  description : String
  deriving DecidableEq

/-- Go `TextualConventionIR` (field `Syntax` is called `syn` here). -/
structure TextualConventionIR where
  name : String
  displayHint : String
  status : String
  description : String
  syn : String
  deriving DecidableEq

/-- Go `NotificationTypeIR`. -/
structure NotificationTypeIR where
  name : String
  oid : List Int
  objects : List String
  status : String
  description : String
  deriving DecidableEq

/-- Go `ModuleIR`; its maps keyed by name become association lists. -/
structure ModuleIR where
  name : String
  nodesByName : List (String × List Int)
  objectsByName : List (String × ObjectTypeIR)
  moduleIdentity : Option ModuleIdentityIR
  objectIdentities : List (String × ObjectIdentityIR)
  textualConventions : List (String × TextualConventionIR)
  notificationTypes : List (String × NotificationTypeIR)
  deriving DecidableEq

/-- What a Go pending-reference closure captured: either just a node name,
or the (immutable-until-fired) record it will patch and re-store. -/
inductive PendTarget where
  | node (name : String)
  | objTy (r0 : ObjectTypeIR)
  | modId (r0 : ModuleIdentityIR)
  | objId (r0 : ObjectIdentityIR)
  | notif (r0 : NotificationTypeIR)
  deriving DecidableEq

/-- Go `pendingRef`: parent name, written index, and the closure's effect. -/
structure PendingRef where
  parent : String
  index : Int
  target : PendTarget
  deriving DecidableEq

/-- The effect of firing a pending closure with the parent's OID `base`
(each Go `apply` func in `parseModule`). -/
def applyPend (pr : PendingRef) (base : List Int) (m : ModuleIR) : ModuleIR :=
  match pr.target with
  | .node name =>
    {m with nodesByName := insertA name (base ++ [pr.index]) m.nodesByName}
  | .objTy r0 =>
    let r := {r0 with oid := base ++ [pr.index]}
    {m with objectsByName := insertA r.name r m.objectsByName,
            nodesByName := insertA r.name r.oid m.nodesByName}
  | .modId r0 =>
    let r := {r0 with oid := base ++ [pr.index]}
    {m with moduleIdentity := some r,
            nodesByName := insertA r.name r.oid m.nodesByName}
  | .objId r0 =>
    let r := {r0 with oid := base ++ [pr.index]}
    {m with objectIdentities := insertA r.name r m.objectIdentities,
            nodesByName := insertA r.name r.oid m.nodesByName}
  | .notif r0 =>
    let r := {r0 with oid := base ++ [pr.index]}
    {m with notificationTypes := insertA r.name r m.notificationTypes}

/-- One pass of the post-parse fixed-point loop (`parseModule`, the loop
body over `p.pend`): fire, in order, every closure whose parent has *any*
entry in `nodesByName`; keep the others; report whether any fired. -/
def resolvePass : List PendingRef → ModuleIR → (ModuleIR × List PendingRef × Bool)
  | [], m => (m, [], false)
  | pr :: rest, m =>
    match lookupA pr.parent m.nodesByName with
    | some base =>
      let (m', rem, _) := resolvePass rest (applyPend pr base m)
      (m', rem, true)
    | none =>
      let (m', rem, prog) := resolvePass rest m
      (m', pr :: rem, prog)

/-- The fixed-point loop: repeat passes until no pass fires or no pending
references remain; surviving references are dropped without error. -/
def resolveLoop : Nat → List PendingRef → ModuleIR → ModuleIR
  | 0, _, m => m
  | fuel + 1, pend, m =>
    match pend with
    | [] => m
    | _ =>
      let (m', rem, prog) := resolvePass pend m
      if prog then resolveLoop fuel rem m' else m'

/-! ### Token-stream helpers (Go `rdParser` next/accept/expect) -/

/-- The current token (`p.tok`); the stream always ends with an `eof`
token, so the empty case is unreachable on real streams. -/
def cur (ts : List Token) : Token := ts.headD (eofAt 0 0)

/-- Consume one token (`p.next()`); consuming `eof` is the identity, as
the Go lexer returns `EOF` forever. -/
def adv : List Token → List Token
  | [] => []
  | t :: rest => if t.kind = .eof then t :: rest else rest

/-- Go `equalFold` from the parser source: ASCII-only case folding. -/
def foldChar (c : Char) : Char :=
  if 'A' ≤ c && c ≤ 'Z' then Char.ofNat (c.toNat + 32) else c

/-- Go `equalFold` lifted to character lists. -/
def eqFoldL : List Char → List Char → Bool
  | [], [] => true
  | a :: as, b :: bs => foldChar a = foldChar b && eqFoldL as bs
  | _, _ => false

/-- Go `equalFold` on strings. -/
def goEqualFold (a b : String) : Bool := eqFoldL a.data b.data

/-- Go `p.isIdent(s)` on a given token. -/
def isIdentTok (t : Token) (s : String) : Bool :=
  t.kind = .ident && goEqualFold t.text s

/-- Go `trimSpace` from the parser source (trims space, newline, tab, CR). -/
def goTrimChar (c : Char) : Bool := c = ' ' || c = '\n' || c = '\t' || c = '\r'

/-- Go `trimSpace`. -/
def goTrim (s : String) : String :=
  ⟨((s.data.dropWhile goTrimChar).reverse.dropWhile goTrimChar).reverse⟩

/-- Go parse error format (`errorf`): the offending position then the
message. -/
def mkErr (line col : Nat) (msg : String) : String :=
  "parse error at " ++ toString line ++ ":" ++ toString col ++ ": " ++ msg

/-- Error at the current token's position. -/
def errAt {α : Type} (ts : List Token) (msg : String) : Except String α :=
  .error (mkErr (cur ts).line (cur ts).col msg)

/-! ### Small parsing utilities (Go `parseUntilKeywords` etc.) -/

/-- The text a token contributes inside `parseUntilKeywords`. -/
def tokenPiece (t : Token) : String :=
  match t.kind with
  | .ident => t.text
  | .number => intDecStr t.int
  | .str => "\"" ++ t.text ++ "\""
  | _ => t.text

/-- Go `parseUntilKeywords` accumulation step. -/
def addPiece (acc piece : String) : String :=
  if acc = "" then piece else acc ++ " " ++ piece

/-- Go `parseUntilKeywords`: gather token text until a stop keyword (or
`::=` when listed) or EOF; the result is trimmed. -/
def parseUntilKeywordsAux (stops : List String) : List Token → String → (String × List Token)
  | [], acc => (goTrim acc, [])
  | t :: rest, acc =>
    if t.kind = .eof then (goTrim acc, t :: rest)
    else if t.kind = .ident && stops.any (fun s => goEqualFold t.text s) then
      (goTrim acc, t :: rest)
    else if t.kind = .colonColonEq && stops.contains "::=" then (goTrim acc, t :: rest)
    else parseUntilKeywordsAux stops rest (addPiece acc (tokenPiece t))

/-- Entry point of `parseUntilKeywords`. -/
def parseUntilKeywords (stops : List String) (ts : List Token) : String × List Token :=
  parseUntilKeywordsAux stops ts ""

/-- Go `parseTypeString`. -/
def parseTypeString (ts : List Token) : String × List Token :=
  parseUntilKeywords ["ACCESS", "MAX-ACCESS", "STATUS", "DESCRIPTION", "INDEX", "::="] ts

/-- The index phase of Go `parseParentRef`: an index written bare or in
parentheses; a missing index is `0`. -/
def parseParentRefIdx (parent : String) (ts1 : List Token) : String × Int × List Token :=
  match ts1 with
  | t :: rest =>
    if t.kind = .lparen then
      match ((match rest with
              | n :: rest2 =>
                if n.kind = TokKind.number then (n.int, rest2) else ((0 : Int), rest)
              | [] => ((0 : Int), rest)) : Int × List Token) with
      | (idx, ts2) =>
        match ts2 with
        | r :: rest3 => if r.kind = .rparen then (parent, idx, rest3) else (parent, idx, ts2)
        | [] => (parent, idx, ts2)
    else if t.kind = .number then (parent, t.int, rest)
    else (parent, 0, ts1)
  | [] => (parent, 0, ts1)

/-- Go `parseParentRef`: optional parent identifier (a module qualifier
`mod.name` keeps only the last identifier), then the index phase. -/
def parseParentRef (ts : List Token) : String × Int × List Token :=
  match ts with
  | t :: rest =>
    if t.kind = .ident then
      match rest with
      | d :: rest2 =>
        if d.kind = .dot then
          match rest2 with
          | t2 :: rest3 =>
            if t2.kind = .ident then parseParentRefIdx t2.text rest3
            else parseParentRefIdx t.text rest2
          | [] => parseParentRefIdx t.text rest2
        else parseParentRefIdx t.text rest
      | [] => parseParentRefIdx t.text rest
    else parseParentRefIdx "" ts
  | [] => parseParentRefIdx "" ts

/-- A parsed `::= { … }` payload: absolute numeric OID or parent/index. -/
inductive OidRef where
  | abs (oid : List Int)
  | sym (parent : String) (index : Int)
  deriving DecidableEq

/-- The run of numbers in the absolute form of
`parseOidAssignmentInsideBraces`. -/
def takeNumbers : List Token → List Int → (List Int × List Token)
  | t :: rest, acc =>
    if t.kind = .number then takeNumbers rest (acc ++ [t.int]) else (acc, t :: rest)
  | [], acc => (acc, [])

/-- Go `parseOidAssignmentInsideBraces`. -/
def parseOidInBraces (ts : List Token) : OidRef × List Token :=
  match ts with
  | t :: _ =>
    if t.kind = .number then
      let (abs, ts') := takeNumbers ts []
      (.abs abs, ts')
    else
      let (p, i, ts') := parseParentRef ts
      (.sym p i, ts')
  | [] =>
    let (p, i, ts') := parseParentRef ts
    (.sym p i, ts')

/-- Go `resolveOidBase`: a parent resolves only to a *non-empty* entry. -/
def resolveOidBase (m : ModuleIR) (name : String) : Option (List Int) :=
  match lookupA name m.nodesByName with
  | some base => if base ≠ [] then some base else none
  | none => none

/-- The result a construct handler passes back to the body loop. -/
abbrev PRes := Except String (List Token × ModuleIR × List PendingRef)

/-- Insert an empty placeholder for `name` unless it already has a
`nodesByName` entry (the Go `if _, exists := …; !exists` idiom). -/
def ensureNode (name : String) (m : ModuleIR) : ModuleIR :=
  if containsKey name m.nodesByName then m
  else {m with nodesByName := insertA name [] m.nodesByName}

/-- Store a resolved OBJECT-TYPE record: the objects index and the
`nodesByName` registration (the Go pair of writes). -/
def storeObjType (o : ObjectTypeIR) (m : ModuleIR) : ModuleIR :=
  {m with objectsByName := insertA o.name o m.objectsByName,
          nodesByName := insertA o.name o.oid m.nodesByName}

/-- Store a resolved MODULE-IDENTITY record with its node entry. -/
def storeModId (r : ModuleIdentityIR) (m : ModuleIR) : ModuleIR :=
  {m with moduleIdentity := some r,
          nodesByName := insertA r.name r.oid m.nodesByName}

/-- Store a resolved OBJECT-IDENTITY record with its node entry. -/
def storeObjIdentity (r : ObjectIdentityIR) (m : ModuleIR) : ModuleIR :=
  {m with objectIdentities := insertA r.name r m.objectIdentities,
          nodesByName := insertA r.name r.oid m.nodesByName}

/-- Store a NOTIFICATION-TYPE record; note there is *no* `nodesByName`
write here, mirroring the Go branches. -/
def storeNotif (r : NotificationTypeIR) (m : ModuleIR) : ModuleIR :=
  {m with notificationTypes := insertA r.name r m.notificationTypes}

/-- `OBJECT IDENTIFIER` assignment for `ident` (`parseModule`, the
`OBJECT` branch): expects `IDENTIFIER ::= \x7b … \x7d`, then resolves or
enqueues a pending reference with an empty placeholder. -/
def parseObjIdentifierDecl (ident : String) (ts : List Token) (m : ModuleIR)
    (pend : List PendingRef) : PRes :=
  if ¬ isIdentTok (cur ts) "IDENTIFIER" then
    errAt ts ("expected IDENTIFIER after OBJECT for " ++ ident)
  else
    let ts := adv ts
    if ¬ (cur ts).kind = .colonColonEq then
      errAt ts ("expected \x27::=\x27 after OBJECT IDENTIFIER")
    else
      let ts := adv ts
      if ¬ (cur ts).kind = .lbrace then
        errAt ts ("expected \x27\x7b\x27 in OBJECT IDENTIFIER assignment")
      else
        match parseOidInBraces (adv ts) with
        | (oref, ts) =>
        if ¬ (cur ts).kind = .rbrace then
          errAt ts ("expected \x27\x7d\x27 in OBJECT IDENTIFIER assignment")
        else
          let ts := adv ts
          match oref with
          | .abs abs =>
            .ok (ts, {m with nodesByName := insertA ident abs m.nodesByName}, pend)
          | .sym parent idx =>
            match resolveOidBase m parent with
            | some base =>
              .ok (ts, {m with nodesByName := insertA ident (base ++ [idx]) m.nodesByName},
                   pend)
            | none =>
              .ok (ts, ensureNode ident m, pend ++ [⟨parent, idx, .node ident⟩])

/-- The `::= \x7b … \x7d` tail of an OBJECT-TYPE (`parseModule`, the end
of the `OBJECT-TYPE` branch); `ts` starts after the `::=`. -/
def finishObjType (obj : ObjectTypeIR) (ts : List Token) (m : ModuleIR)
    (pend : List PendingRef) : PRes :=
  if ¬ (cur ts).kind = .lbrace then
    errAt ts ("expected \x27\x7b\x27 after \x27::=\x27 in OBJECT-TYPE")
  else
    match parseOidInBraces (adv ts) with
    | (oref, ts) =>
    if ¬ (cur ts).kind = .rbrace then
      errAt ts ("expected \x27\x7d\x27 after OBJECT-TYPE OID ref")
    else
      let ts := adv ts
      match oref with
      | .abs abs => .ok (ts, storeObjType {obj with oid := abs} m, pend)
      | .sym parent idx =>
        match resolveOidBase m parent with
        | some base => .ok (ts, storeObjType {obj with oid := base ++ [idx]} m, pend)
        | none =>
          let m1 := {m with objectsByName := insertA obj.name obj m.objectsByName}
          .ok (ts, ensureNode obj.name m1, pend ++ [⟨parent, idx, .objTy obj⟩])

/-- The `::= \x7b … \x7d` tail of a MODULE-IDENTITY. -/
def finishModId (mi : ModuleIdentityIR) (ts : List Token) (m : ModuleIR)
    (pend : List PendingRef) : PRes :=
  if ¬ (cur ts).kind = .lbrace then
    errAt ts ("expected \x27\x7b\x27 after MODULE-IDENTITY \x27::=\x27")
  else
    match parseOidInBraces (adv ts) with
    | (oref, ts) =>
    if ¬ (cur ts).kind = .rbrace then
      errAt ts ("expected \x27\x7d\x27 after MODULE-IDENTITY OID")
    else
      let ts := adv ts
      match oref with
      | .abs abs => .ok (ts, storeModId {mi with oid := abs} m, pend)
      | .sym parent idx =>
        match resolveOidBase m parent with
        | some base => .ok (ts, storeModId {mi with oid := base ++ [idx]} m, pend)
        | none =>
          .ok (ts, {m with moduleIdentity := some mi}, pend ++ [⟨parent, idx, .modId mi⟩])

/-- The `::= \x7b … \x7d` tail of an OBJECT-IDENTITY. -/
def finishObjIdentity (oi : ObjectIdentityIR) (ts : List Token) (m : ModuleIR)
    (pend : List PendingRef) : PRes :=
  if ¬ (cur ts).kind = .lbrace then
    errAt ts ("expected \x27\x7b\x27 after OBJECT-IDENTITY \x27::=\x27")
  else
    match parseOidInBraces (adv ts) with
    | (oref, ts) =>
    if ¬ (cur ts).kind = .rbrace then
      errAt ts ("expected \x27\x7d\x27 after OBJECT-IDENTITY OID")
    else
      let ts := adv ts
      match oref with
      | .abs abs => .ok (ts, storeObjIdentity {oi with oid := abs} m, pend)
      | .sym parent idx =>
        match resolveOidBase m parent with
        | some base => .ok (ts, storeObjIdentity {oi with oid := base ++ [idx]} m, pend)
        | none =>
          .ok (ts, {m with objectIdentities := insertA oi.name oi m.objectIdentities},
               pend ++ [⟨parent, idx, .objId oi⟩])

/-- The `::= \x7b … \x7d` tail of a NOTIFICATION-TYPE; none of its
branches writes `nodesByName`. -/
def finishNotif (nt : NotificationTypeIR) (ts : List Token) (m : ModuleIR)
    (pend : List PendingRef) : PRes :=
  if ¬ (cur ts).kind = .lbrace then
    errAt ts ("expected \x27\x7b\x27 after NOTIFICATION-TYPE \x27::=\x27")
  else
    match parseOidInBraces (adv ts) with
    | (oref, ts) =>
    if ¬ (cur ts).kind = .rbrace then
      errAt ts ("expected \x27\x7d\x27 after NOTIFICATION-TYPE OID")
    else
      let ts := adv ts
      match oref with
      | .abs abs => .ok (ts, storeNotif {nt with oid := abs} m, pend)
      | .sym parent idx =>
        match resolveOidBase m parent with
        | some base => .ok (ts, storeNotif {nt with oid := base ++ [idx]} m, pend)
        | none => .ok (ts, storeNotif nt m, pend ++ [⟨parent, idx, .notif nt⟩])

/-- The `::= \x7b parentRef \x7d` tail of the four group-like
constructs; the parent lookup here does *not* require a non-empty
entry. -/
def finishGroup (cname ident : String) (ts : List Token) (m : ModuleIR)
    (pend : List PendingRef) : PRes :=
  if ¬ (cur ts).kind = .lbrace then
    errAt ts ("expected \x27\x7b\x27 after " ++ cname ++ " \x27::=\x27")
  else
    match parseParentRef (adv ts) with
    | (parent, idx, ts) =>
    if ¬ (cur ts).kind = .rbrace then
      errAt ts ("expected \x27\x7d\x27 after " ++ cname ++ " OID")
    else
      let ts := adv ts
      match lookupA parent m.nodesByName with
      | some base =>
        .ok (ts, {m with nodesByName := insertA ident (base ++ [idx]) m.nodesByName},
             pend)
      | none => .ok (ts, m, pend ++ [⟨parent, idx, .node ident⟩])

/-- The clause loop shared by both TEXTUAL-CONVENTION entry forms
(`parseModule`, the `::= TEXTUAL-CONVENTION` and named forms): ends when
SYNTAX has been read and the record is stored. -/
def parseTCLoop : Nat → TextualConventionIR → List Token → ModuleIR → List PendingRef → PRes
  | 0, _, _, _, _ => .error ("internal: parser fuel exhausted")
  | fuel + 1, tc, ts, m, pend =>
    if isIdentTok (cur ts) "DISPLAY-HINT" then
      let ts := adv ts
      if (cur ts).kind = .str then
        parseTCLoop fuel {tc with displayHint := (cur ts).text} (adv ts) m pend
      else parseTCLoop fuel tc ts m pend
    else if isIdentTok (cur ts) "STATUS" then
      match parseUntilKeywords ["DESCRIPTION", "SYNTAX"] (adv ts) with
      | (v, ts') => parseTCLoop fuel {tc with status := v} ts' m pend
    else if isIdentTok (cur ts) "DESCRIPTION" then
      let ts := adv ts
      if (cur ts).kind = .str then
        parseTCLoop fuel {tc with description := (cur ts).text} (adv ts) m pend
      else parseTCLoop fuel tc ts m pend
    else if isIdentTok (cur ts) "SYNTAX" then
      match parseTypeString (adv ts) with
      | (v, ts') =>
        let tc' := {tc with syn := v}
        .ok (ts', {m with textualConventions := insertA tc'.name tc' m.textualConventions},
             pend)
    else if (cur ts).kind = .eof then errAt ts ("unexpected EOF in TEXTUAL-CONVENTION")
    else parseTCLoop fuel tc (adv ts) m pend

/-- The Go `INDEX \x7b … \x7d` element loop: `IMPLIED` markers are
consumed and dropped; identifiers are collected in order. -/
def parseIndexList : List Token → List String → Except String (List String × List Token)
  | t :: rest, acc =>
    if t.kind = .ident then
      if goEqualFold t.text ("IMPLIED") then parseIndexList rest acc
      else
        match rest with
        | c :: rest2 =>
          if c.kind = .comma then parseIndexList rest2 (acc ++ [t.text])
          else if c.kind = .rbrace then .ok (acc ++ [t.text], rest2)
          else errAt rest ("expected \x27,\x27 or \x27\x7d\x27 in INDEX list")
        | [] => errAt ([]) ("expected \x27,\x27 or \x27\x7d\x27 in INDEX list")
    else if t.kind = .rbrace then .ok (acc, rest)
    else errAt (t :: rest) ("expected identifier in INDEX list")
  | [], _ => errAt ([]) ("expected identifier in INDEX list")

/-- The OBJECT-TYPE clause loop (`parseModule`, `OBJECT-TYPE` branch). -/
def parseObjectTypeLoop : Nat → ObjectTypeIR → List Token → ModuleIR → List PendingRef → PRes
  | 0, _, _, _, _ => .error ("internal: parser fuel exhausted")
  | fuel + 1, obj, ts, m, pend =>
    if (cur ts).kind = .eof then
      errAt ts ("unexpected EOF in OBJECT-TYPE for " ++ obj.name)
    else if isIdentTok (cur ts) "SYNTAX" then
      match parseTypeString (adv ts) with
      | (v, ts') => parseObjectTypeLoop fuel {obj with syn := v} ts' m pend
    else if isIdentTok (cur ts) "MAX-ACCESS" || isIdentTok (cur ts) "ACCESS" then
      match parseUntilKeywords ["STATUS", "DESCRIPTION", "INDEX", "::="] (adv ts) with
      | (v, ts') => parseObjectTypeLoop fuel {obj with access := v} ts' m pend
    else if isIdentTok (cur ts) "STATUS" then
      match parseUntilKeywords ["DESCRIPTION", "INDEX", "::="] (adv ts) with
      | (v, ts') => parseObjectTypeLoop fuel {obj with status := v} ts' m pend
    else if isIdentTok (cur ts) "DESCRIPTION" then
      let ts := adv ts
      if ¬ (cur ts).kind = .str then errAt ts ("expected string after DESCRIPTION")
      else parseObjectTypeLoop fuel {obj with description := (cur ts).text} (adv ts) m pend
    else if isIdentTok (cur ts) "INDEX" then
      let ts := adv ts
      if ¬ (cur ts).kind = .lbrace then errAt ts ("expected \x27\x7b\x27 after INDEX")
      else
        match parseIndexList (adv ts) [] with
        | .error e => .error e
        | .ok (idx, ts') => parseObjectTypeLoop fuel {obj with index := idx} ts' m pend
    -- the source repeats the STATUS and ACCESS branches here ("allow STATUS
    -- before ACCESS", "accept anywhere before ::="); they are shadowed by
    -- the identical checks above and kept for fidelity
    else if isIdentTok (cur ts) "STATUS" then
      match parseUntilKeywords ["DESCRIPTION", "INDEX", "::=", "ACCESS", "MAX-ACCESS"] (adv ts) with
      | (v, ts') => parseObjectTypeLoop fuel {obj with status := v} ts' m pend
    else if isIdentTok (cur ts) "MAX-ACCESS" || isIdentTok (cur ts) "ACCESS" then
      match parseUntilKeywords ["STATUS", "DESCRIPTION", "INDEX", "::="] (adv ts) with
      | (v, ts') => parseObjectTypeLoop fuel {obj with access := v} ts' m pend
    else if (cur ts).kind = .colonColonEq then finishObjType obj (adv ts) m pend
    else if (cur ts).kind = .semicolon then parseObjectTypeLoop fuel obj (adv ts) m pend
    else parseObjectTypeLoop fuel obj (adv ts) m pend

/-- The shared loop of the four group-like constructs (`OBJECT-GROUP`,
`NOTIFICATION-GROUP`, `MODULE-COMPLIANCE`, `AGENT-CAPABILITIES`):
consume until `::=`, then resolve via `finishGroup` into
`nodesByName` only. -/
def parseGroupLoop (cname ident : String) : Nat → List Token → ModuleIR → List PendingRef → PRes
  | 0, _, _, _ => .error ("internal: parser fuel exhausted")
  | fuel + 1, ts, m, pend =>
    if (cur ts).kind = .eof then errAt ts ("unexpected EOF in " ++ cname)
    else if (cur ts).kind = .colonColonEq then finishGroup cname ident (adv ts) m pend
    else parseGroupLoop cname ident fuel (adv ts) m pend

/-- The MODULE-IDENTITY clause loop (the caller has already inserted the
empty placeholder node for the name). -/
def parseModIdLoop : Nat → ModuleIdentityIR → List Token → ModuleIR → List PendingRef → PRes
  | 0, _, _, _, _ => .error ("internal: parser fuel exhausted")
  | fuel + 1, mi, ts, m, pend =>
    if isIdentTok (cur ts) "LAST-UPDATED" then
      let ts := adv ts
      if (cur ts).kind = .str then
        parseModIdLoop fuel {mi with lastUpdated := (cur ts).text} (adv ts) m pend
      else parseModIdLoop fuel mi ts m pend
    else if isIdentTok (cur ts) "ORGANIZATION" then
      let ts := adv ts
      if (cur ts).kind = .str then
        parseModIdLoop fuel {mi with organization := (cur ts).text} (adv ts) m pend
      else parseModIdLoop fuel mi ts m pend
    else if isIdentTok (cur ts) "CONTACT-INFO" then
      let ts := adv ts
      if (cur ts).kind = .str then
        parseModIdLoop fuel {mi with contactInfo := (cur ts).text} (adv ts) m pend
      else parseModIdLoop fuel mi ts m pend
    else if isIdentTok (cur ts) "DESCRIPTION" then
      let ts := adv ts
      if (cur ts).kind = .str then
        parseModIdLoop fuel {mi with description := (cur ts).text} (adv ts) m pend
      else parseModIdLoop fuel mi ts m pend
    else if (cur ts).kind = .colonColonEq then finishModId mi (adv ts) m pend
    else if (cur ts).kind = .eof then errAt ts ("unexpected EOF in MODULE-IDENTITY")
    else parseModIdLoop fuel mi (adv ts) m pend

/-- The OBJECT-IDENTITY clause loop (placeholder already inserted by the
caller). -/
def parseObjIdentityLoop : Nat → ObjectIdentityIR → List Token → ModuleIR → List PendingRef → PRes
  | 0, _, _, _, _ => .error ("internal: parser fuel exhausted")
  | fuel + 1, oi, ts, m, pend =>
    if isIdentTok (cur ts) "STATUS" then
      match parseUntilKeywords ["DESCRIPTION", "::="] (adv ts) with
      | (v, ts') => parseObjIdentityLoop fuel {oi with status := v} ts' m pend
    else if isIdentTok (cur ts) "DESCRIPTION" then
      let ts := adv ts
      if (cur ts).kind = .str then
        parseObjIdentityLoop fuel {oi with description := (cur ts).text} (adv ts) m pend
      else parseObjIdentityLoop fuel oi ts m pend
    else if (cur ts).kind = .colonColonEq then finishObjIdentity oi (adv ts) m pend
    else if (cur ts).kind = .eof then errAt ts ("unexpected EOF in OBJECT-IDENTITY")
    else parseObjIdentityLoop fuel oi (adv ts) m pend

/-- The element loop of the NOTIFICATION-TYPE `OBJECTS \x7b … \x7d`
clause: identifiers separated by commas; the list ends at the first
token that is not an identifier after a separator. -/
def parseObjectsList : List Token → List String → (List String × List Token)
  | t :: rest, acc =>
    if t.kind = .ident then
      match rest with
      | c :: rest2 =>
        if c.kind = .comma then parseObjectsList rest2 (acc ++ [t.text])
        else (acc ++ [t.text], rest)
      | [] => (acc ++ [t.text], rest)
    else (acc, t :: rest)
  | [], acc => (acc, [])

/-- The NOTIFICATION-TYPE clause loop.  Note that no branch writes to
`nodesByName`: the notification name is stored in `notificationTypes`
only. -/
def parseNotifLoop : Nat → NotificationTypeIR → List Token → ModuleIR → List PendingRef → PRes
  | 0, _, _, _, _ => .error ("internal: parser fuel exhausted")
  | fuel + 1, nt, ts, m, pend =>
    if isIdentTok (cur ts) "OBJECTS" then
      let ts := adv ts
      if ¬ (cur ts).kind = .lbrace then errAt ts ("expected \x27\x7b\x27 after OBJECTS")
      else
        match parseObjectsList (adv ts) [] with
        | (objs, ts) =>
        if ¬ (cur ts).kind = .rbrace then
          errAt ts ("expected \x27\x7d\x27 at end of OBJECTS list")
        else parseNotifLoop fuel {nt with objects := objs} (adv ts) m pend
    else if isIdentTok (cur ts) "STATUS" then
      match parseUntilKeywords ["DESCRIPTION", "::="] (adv ts) with
      | (v, ts') => parseNotifLoop fuel {nt with status := v} ts' m pend
    else if isIdentTok (cur ts) "DESCRIPTION" then
      let ts := adv ts
      if (cur ts).kind = .str then
        parseNotifLoop fuel {nt with description := (cur ts).text} (adv ts) m pend
      else parseNotifLoop fuel nt ts m pend
    else if (cur ts).kind = .colonColonEq then finishNotif nt (adv ts) m pend
    else if (cur ts).kind = .eof then errAt ts ("unexpected EOF in NOTIFICATION-TYPE")
    else parseNotifLoop fuel nt (adv ts) m pend

/-! ### Skipping (Go `skipDefinition`) -/

/-- The `<NAME> MACRO ::= BEGIN … END` body skip: everything up to and
including the next `END` is discarded. -/
def skipMacroBody : List Token → List Token
  | [] => []
  | t :: rest =>
    if t.kind = .eof then t :: rest
    else if isIdentTok t "END" then rest
    else skipMacroBody rest

/-- The main loop of `skipDefinition`: consume tokens, tracking brace
depth once a `\x7b` has been seen and returning when it closes; an `END`
identifier stops the skip without being consumed. -/
def skipBalanced : Nat → Bool → List Token → List Token
  | _, _, [] => []
  | depth, started, t :: rest =>
    if t.kind = .eof then t :: rest
    else if isIdentTok t "END" then t :: rest
    else
      match t.kind with
      | .lbrace => skipBalanced (depth + 1) true rest
      | .rbrace =>
        let d' := if depth > 0 then depth - 1 else depth
        if started && d' = 0 then rest else skipBalanced d' started rest
      | _ => skipBalanced depth started rest

/-- Go `skipDefinition`. -/
def skipDefinition (ts : List Token) : List Token :=
  if isIdentTok (cur ts) "MACRO" then
    let ts1 := adv ts
    match ts1 with
    | t :: rest =>
      if t.kind = .colonColonEq then
        match rest with
        | b :: rest2 =>
          if isIdentTok b "BEGIN" then skipMacroBody rest2
          else skipBalanced 0 false rest
        | [] => skipBalanced 0 false rest
      else skipBalanced 0 false ts1
    | [] => skipBalanced 0 false ts1
  else skipBalanced 0 false ts

/-! ### Module body and entry points (Go `parseModule` / `Parse`) -/

/-- Go `parseImports`: discard tokens up to and including the first
semicolon. -/
def parseImports : List Token → List Token
  | [] => []
  | t :: rest =>
    if t.kind = .eof then t :: rest
    else if t.kind = .semicolon then rest
    else parseImports rest

/-- Continue the body loop with a handler's result (the Go pattern of
returning the construct's error, else carrying on). -/
def stepOk (r : PRes)
    (k : List Token → ModuleIR → List PendingRef → Except String (ModuleIR × List PendingRef)) :
    Except String (ModuleIR × List PendingRef) :=
  match r with
  | .error e => .error e
  | .ok (ts2, m2, p2) => k ts2 m2 p2

/-- A fresh TEXTUAL-CONVENTION record for a declared name. -/
def newTC (n : String) : TextualConventionIR :=
  {name := n, displayHint := "", status := "", description := "", syn := ""}

/-- A fresh OBJECT-TYPE record for a declared name. -/
def newObjType (n : String) : ObjectTypeIR :=
  {name := n, oid := [], syn := "", access := "", status := "", description := "",
   index := []}

/-- A fresh MODULE-IDENTITY record for a declared name. -/
def newModId (n : String) : ModuleIdentityIR :=
  {name := n, oid := [], lastUpdated := "", organization := "", contactInfo := "",
   description := ""}

/-- A fresh OBJECT-IDENTITY record for a declared name. -/
def newObjIdentity (n : String) : ObjectIdentityIR :=
  {name := n, oid := [], status := "", description := ""}

/-- A fresh NOTIFICATION-TYPE record for a declared name. -/
def newNotif (n : String) : NotificationTypeIR :=
  {name := n, oid := [], objects := [], status := "", description := ""}

/-- The dispatch on the token after a top-level identifier (the chain of
`isIdent` checks in `parseModule`'s body loop); returns the state after
the construct has been handled. -/
def dispatchTop (idName : String) (ts1 : List Token) (m : ModuleIR)
    (pend : List PendingRef) : PRes :=
  let t2 := cur ts1
  if isIdentTok t2 "MACRO" then .ok (skipDefinition ts1, m, pend)
  else if isIdentTok t2 "OBJECT" then parseObjIdentifierDecl idName (adv ts1) m pend
  else if t2.kind = .colonColonEq then
    let ts2 := adv ts1
    if isIdentTok (cur ts2) "TEXTUAL-CONVENTION" then
      parseTCLoop (ts2.length + 1) (newTC idName) (adv ts2) m pend
    else .ok (skipDefinition ts2, m, pend)
  else if isIdentTok t2 "OBJECT-TYPE" then
    parseObjectTypeLoop (ts1.length + 1) (newObjType idName) (adv ts1) m pend
  else if isIdentTok t2 "OBJECT-GROUP" then
    parseGroupLoop ("OBJECT-GROUP") idName (ts1.length + 1) (adv ts1) m pend
  else if isIdentTok t2 "NOTIFICATION-GROUP" then
    parseGroupLoop ("NOTIFICATION-GROUP") idName (ts1.length + 1) (adv ts1) m pend
  else if isIdentTok t2 "MODULE-COMPLIANCE" then
    parseGroupLoop ("MODULE-COMPLIANCE") idName (ts1.length + 1) (adv ts1) m pend
  else if isIdentTok t2 "AGENT-CAPABILITIES" then
    parseGroupLoop ("AGENT-CAPABILITIES") idName (ts1.length + 1) (adv ts1) m pend
  else if isIdentTok t2 "MODULE-IDENTITY" then
    parseModIdLoop (ts1.length + 1) (newModId idName) (adv ts1) (ensureNode idName m) pend
  else if isIdentTok t2 "OBJECT-IDENTITY" then
    parseObjIdentityLoop (ts1.length + 1) (newObjIdentity idName) (adv ts1)
      (ensureNode idName m) pend
  else if isIdentTok t2 "TEXTUAL-CONVENTION" then
    parseTCLoop (ts1.length + 1) (newTC idName) (adv ts1) m pend
  else if isIdentTok t2 "NOTIFICATION-TYPE" then
    parseNotifLoop (ts1.length + 1) (newNotif idName) (adv ts1) m pend
  else .ok (skipDefinition ts1, m, pend)

/-- The top-level body loop of `parseModule`: reads one identifier, then
one-token lookahead chooses the construct (`dispatchTop`).  `END`
terminates only when followed by EOF. -/
def parseBody : Nat → List Token → ModuleIR → List PendingRef →
    Except String (ModuleIR × List PendingRef)
  | 0, _, _, _ => .error ("internal: parser fuel exhausted")
  | fuel + 1, ts, m, pend =>
    let t := cur ts
    if t.kind = .eof then .ok (m, pend)
    else if isIdentTok t "END" then
      let ts' := adv ts
      if (cur ts').kind = .eof then .ok (m, pend)
      else parseBody fuel ts' m pend
    else if t.kind = .ident then
      stepOk (dispatchTop t.text (adv ts) m pend) (parseBody fuel)
    else parseBody fuel (adv ts) m pend

/-- Go `initBaseOids`: ten successive writes into the empty map yield
exactly this association list, in insertion order. -/
def baseOids : List (String × List Int) :=
  [("iso", [1]), ("org", [1, 3]), ("dod", [1, 3, 6]), ("internet", [1, 3, 6, 1]),
   ("mgmt", [1, 3, 6, 1, 2]), ("mib-2", [1, 3, 6, 1, 2, 1]),
   ("private", [1, 3, 6, 1, 4]), ("enterprises", [1, 3, 6, 1, 4, 1]),
   ("snmpV2", [1, 3, 6, 1, 6]), ("snmpModules", [1, 3, 6, 1, 6, 3])]

/-- The parser state `Parse` builds before `parseModule` runs: fresh
empty indexes with the bootstrap OIDs installed (`initBaseOids`). -/
def initModule : ModuleIR :=
  {name := "", nodesByName := baseOids, objectsByName := [], moduleIdentity := none,
   objectIdentities := [], textualConventions := [], notificationTypes := []}

/-- Go `parseModule`: the fixed header
`Ident DEFINITIONS ::= BEGIN`, optional IMPORTS, the body loop, then the
fixed-point resolution of pending references (whose survivors are
dropped). -/
def parseModule (fuel : Nat) (ts : List Token) (m : ModuleIR) : Except String ModuleIR :=
  if ¬ (cur ts).kind = .ident then errAt ts ("expected module name")
  else
    let m := {m with name := (cur ts).text}
    let ts := adv ts
    if ¬ isIdentTok (cur ts) "DEFINITIONS" then errAt ts ("expected DEFINITIONS")
    else
      let ts := adv ts
      if ¬ (cur ts).kind = .colonColonEq then
        errAt ts ("expected \x27::=\x27 after DEFINITIONS")
      else
        let ts := adv ts
        if ¬ isIdentTok (cur ts) "BEGIN" then errAt ts ("expected BEGIN")
        else
          let ts := adv ts
          let ts := if isIdentTok (cur ts) "IMPORTS" then parseImports (adv ts) else ts
          match parseBody fuel ts m [] with
          | .error e => .error e
          | .ok (m', pend) => .ok (resolveLoop (pend.length + 1) pend m')

/-! ### Source-level augmentation (Go `augmentFromSource` and helpers)

The Go code runs four `regexp` patterns over the cleaned source.  The
patterns are anchored (`(?m)^`), so a match can only start at a line
start; their character classes (`[A-Za-z][A-Za-z0-9-]*`, `\s`) are
disjoint where they meet, so greedy matching is deterministic and the
patterns are modelled by the direct matchers below.  `FindAllStringSubmatch`
collects matches left to right without overlap; `scanPattern` mirrors
that. -/

/-- A character of the RE2 class `\s` (tab, newline, form feed, CR,
space). -/
def reWs (c : Char) : Bool :=
  c = ' ' || c = '\t' || c = '\n' || c = '\x0c' || c = '\r'

/-- A character of the RE2 word class `\w` (used for `\b`). -/
def reWordChar (c : Char) : Bool :=
  ('a' ≤ c && c ≤ 'z') || ('A' ≤ c && c ≤ 'Z') || ('0' ≤ c && c ≤ '9') || c = '_'

/-- `\s*`. -/
def dropWsStar (cs : List Char) : List Char := cs.dropWhile reWs

/-- `\s+` (at least one). -/
def dropWsPlus (cs : List Char) : Option (List Char) :=
  match cs with
  | c :: rest => if reWs c then some (dropWsStar rest) else none
  | [] => none

/-- `[A-Za-z][A-Za-z0-9-]*` (the captured name). -/
def matchReIdent (cs : List Char) : Option (String × List Char) :=
  match cs with
  | c :: rest =>
    if ('a' ≤ c && c ≤ 'z') || ('A' ≤ c && c ≤ 'Z') then
      let tail := rest.takeWhile (fun d =>
        ('a' ≤ d && d ≤ 'z') || ('A' ≤ d && d ≤ 'Z') || ('0' ≤ d && d ≤ '9') || d = '-')
      some (⟨c :: tail⟩, rest.drop tail.length)
    else none
  | [] => none

/-- A literal word in the pattern. -/
def matchLit : List Char → List Char → Option (List Char)
  | [], cs => some cs
  | l :: ls, c :: cs => if c = l then matchLit ls cs else none
  | _ :: _, [] => none

/-- `\b` after a word character: the next character is not a word
character (or the input ends). -/
def atWordBoundary (cs : List Char) : Bool :=
  match cs with
  | [] => true
  | c :: _ => ¬ reWordChar c

/-- One attempted match of
`^\s*([A-Za-z][A-Za-z0-9-]*)\s+OBJECT\s+IDENTIFIER\s+::=` at a line
start. -/
def matchObjIdPat (cs : List Char) : Option (String × List Char) :=
  (matchReIdent (dropWsStar cs)).bind fun (name, cs1) =>
    (dropWsPlus cs1).bind fun cs2 =>
      (matchLit ("OBJECT".data) cs2).bind fun cs3 =>
        (dropWsPlus cs3).bind fun cs4 =>
          (matchLit ("IDENTIFIER".data) cs4).bind fun cs5 =>
            (dropWsPlus cs5).bind fun cs6 =>
              (matchLit ("::=".data) cs6).map fun cs7 => (name, cs7)

/-- One attempted match of `^\s*([A-Za-z][A-Za-z0-9-]*)\s+KEYWORD\b`
(for `OBJECT-TYPE`, `OBJECT-IDENTITY`, `NOTIFICATION-TYPE`). -/
def matchKwPat (kw : String) (cs : List Char) : Option (String × List Char) :=
  (matchReIdent (dropWsStar cs)).bind fun (name, cs1) =>
    (dropWsPlus cs1).bind fun cs2 =>
      (matchLit kw.data cs2).bind fun cs3 =>
        if atWordBoundary cs3 then some (name, cs3) else none

/-- Leftmost, non-overlapping scan of an anchored pattern: try the
pattern at every line start, continuing after each match. -/
def scanPattern (pat : List Char → Option (String × List Char)) :
    Nat → Bool → List Char → List String
  | 0, _, _ => []
  | fuel + 1, atLS, cs =>
    match cs with
    | [] => []
    | c :: rest =>
      if atLS then
        match pat cs with
        | some (name, rest') => name :: scanPattern pat fuel false rest'
        | none => scanPattern pat fuel (c = '\n') rest
      else scanPattern pat fuel (c = '\n') rest

/-- All names matched by a pattern over the cleaned source. -/
def scanAll (pat : List Char → Option (String × List Char)) (cs : List Char) : List String :=
  scanPattern pat (cs.length + 1) true cs

/-- Split a character list at newlines (Go `strings.Split(s, "\n")`). -/
def splitLines : List Char → List (List Char)
  | [] => [[]]
  | c :: rest =>
    if c = '\n' then [] :: splitLines rest
    else
      match splitLines rest with
      | l :: ls => (c :: l) :: ls
      | [] => [[c]]

/-- Join lines with newlines (Go `strings.Join(lines, "\n")`). -/
def joinLines : List (List Char) → List Char
  | [] => []
  | [l] => l
  | l :: ls => l ++ '\n' :: joinLines ls

/-- Cut one line at the first `--` (Go `strings.Index(line, "--")`). -/
def cutLineComment : List Char → List Char
  | [] => []
  | [c] => [c]
  | c :: c2 :: rest =>
    if c = '-' && c2 = '-' then []
    else c :: cutLineComment (c2 :: rest)

/-- Go `stripLineComments`. -/
def stripLineComments (cs : List Char) : List Char :=
  joinLines ((splitLines cs).map cutLineComment)

/-- Go `removeQuotedStrings`: quotes become spaces; inside a string every
character except newline/CR becomes a space. -/
def removeQuotedStrings : Bool → List Char → List Char
  | _, [] => []
  | inside, c :: rest =>
    if c = '"' then ' ' :: removeQuotedStrings (!inside) rest
    else if inside then
      (if c = '\n' || c = '\r' then c else ' ') :: removeQuotedStrings inside rest
    else c :: removeQuotedStrings inside rest

/-- Go `strings.TrimSpace` (ASCII whitespace; the inputs considered are
ASCII). -/
def goTrimSpaceChar (c : Char) : Bool :=
  c = ' ' || c = '\t' || c = '\n' || c = '\x0b' || c = '\x0c' || c = '\r'

/-- Whether `pre` starts the list (Go `strings.HasPrefix`). -/
def startsWithL : List Char → List Char → Bool
  | [], _ => true
  | _ :: _, [] => false
  | p :: ps, c :: cs => p = c && startsWithL ps cs

/-- Go `removeImportsBlocks`: drop every line from one whose trimmed text
starts with `IMPORTS` through the first line containing `;`. -/
def removeImportsLines : Bool → List (List Char) → List (List Char)
  | _, [] => []
  | skipping, line :: rest =>
    if ¬ skipping && startsWithL ("IMPORTS".data) (line.dropWhile goTrimSpaceChar) then
      if line.contains ';' then removeImportsLines false rest
      else removeImportsLines true rest
    else if skipping then
      if line.contains ';' then removeImportsLines false rest
      else removeImportsLines true rest
    else line :: removeImportsLines false rest

/-- Go `removeImportsBlocks`. -/
def removeImportsBlocks (cs : List Char) : List Char :=
  joinLines (removeImportsLines false (splitLines cs))

/-- Go `isReservedName`. -/
def isReservedName (s : String) : Bool :=
  s = "BEGIN" || s = "END" || s = "DEFINITIONS" || s = "IMPORTS"

/-- Insert, for each matched name, a record placeholder in the given kind
index (unless present) and an empty node entry (unless present); the two
checks are independent, as in the Go loops. -/
def augNames (names : List String) (reserved : Bool)
    (addRecord : String → ModuleIR → ModuleIR) (m : ModuleIR) : ModuleIR :=
  names.foldl (fun m name =>
    if reserved && isReservedName name then m
    else
      let m1 := addRecord name m
      if containsKey name m1.nodesByName then m1
      else {m1 with nodesByName := insertA name [] m1.nodesByName}) m

/-- Go `augmentFromSource`: regex sweep of the cleaned source inserting
placeholders for declarations the tokenized pass missed. -/
def augmentFromSource (src : String) (m : ModuleIR) : ModuleIR :=
  let clean := removeImportsBlocks (removeQuotedStrings false (stripLineComments src.data))
  -- `OBJECT IDENTIFIER` names: node placeholders only, no reserved-name
  -- filter in the source
  let m := (scanAll matchObjIdPat clean).foldl (fun m name =>
    if containsKey name m.nodesByName then m
    else {m with nodesByName := insertA name [] m.nodesByName}) m
  let m := augNames (scanAll (matchKwPat ("OBJECT-TYPE")) clean) true
    (fun name m =>
      let r : ObjectTypeIR :=
        {name := name, oid := [], syn := "", access := "", status := "",
         description := "", index := []}
      if containsKey name m.objectsByName then m
      else {m with objectsByName := insertA name r m.objectsByName}) m
  let m := augNames (scanAll (matchKwPat ("OBJECT-IDENTITY")) clean) true
    (fun name m =>
      let r : ObjectIdentityIR := {name := name, oid := [], status := "", description := ""}
      if containsKey name m.objectIdentities then m
      else {m with objectIdentities := insertA name r m.objectIdentities}) m
  augNames (scanAll (matchKwPat ("NOTIFICATION-TYPE")) clean) true
    (fun name m =>
      let r : NotificationTypeIR :=
        {name := name, oid := [], objects := [], status := "", description := ""}
      if containsKey name m.notificationTypes then m
      else {m with notificationTypes := insertA name r m.notificationTypes}) m

/-- Go `Parse`: lex, install the bootstrap OIDs, parse the single module,
then augment from the raw source. -/
def Parse (src : String) : Except String ModuleIR :=
  let ts := tokenize src
  match parseModule (ts.length + 1) ts initModule with
  | .error e => .error e
  | .ok m => .ok (augmentFromSource src m)

/-- `true` exactly on a successful parse. -/
def parseOk (src : String) : Bool :=
  match Parse src with
  | .ok _ => true
  | .error _ => false

/-! ### OID rendering (Go `oidToString` / `OIDString`) -/

/-- Go `strings.Join(strs, ".")`. -/
def joinDotL : List (List Char) → List Char
  | [] => []
  | [p] => p
  | p :: ps => p ++ '.' :: joinDotL ps

/-- Go `oidToString` (and the equivalent `OIDString`): each component in
decimal, joined with dots. -/
def oidToString (oid : List Int) : String := ⟨joinDotL (oid.map intDecL)⟩

/-- Splitting a rendered OID on `.` (the inverse direction named by the
spec's property P1). -/
def splitDotL : List Char → List (List Char)
  | [] => [[]]
  | c :: rest =>
    if c = '.' then [] :: splitDotL rest
    else
      match splitDotL rest with
      | l :: ls => (c :: l) :: ls
      | [] => [[c]]

/-- Parsing one dotted component as a decimal natural number. -/
def parseDecNat (cs : List Char) : Option Nat :=
  if cs = [] then none
  else if cs.all Char.isDigit then
    some (cs.foldl (fun a c => 10 * a + (c.toNat - 48)) 0)
  else none

/-- Option-valued map over a list, failing if any element fails. -/
def mapOpt {α β : Type} (f : α → Option β) : List α → Option (List β)
  | [] => some []
  | x :: xs =>
    match f x with
    | none => none
    | some y => (mapOpt f xs).map (fun ys => y :: ys)

/-- Parsing a dotted decimal string back into an OID. -/
def parseOidString (s : String) : Option (List Int) :=
  mapOpt (fun p => (parseDecNat p).map Int.ofNat) (splitDotL s.data)

/-! ### Exported lookup helpers (Go `types.go` and the exported `Module`)

Go `nil` maps and the `nil` receiver are modelled with `Option`; the
exported `ObjectType` record mirrors `ObjectTypeIR` (field `Syntax` is
again `syn`). -/

/-- The exported `ObjectType` record. -/
structure ObjectTypePub where
  name : String
  oid : List Int
  syn : String
  access : String
  status : String
  description : String
  index : List String
  deriving DecidableEq

/-- Go `OidNode` (`types.go`). -/
structure OidNode where
  name : String
  oid : List Int
  deriving DecidableEq

/-- The `Module` of `types.go` (name, nodes, objects); map fields may be
`nil`. -/
structure ModuleV1 where
  name : String
  nodesByName : Option (List (String × OidNode))
  objectsByName : Option (List (String × ObjectTypePub))
  deriving DecidableEq

/-- The exported `Module` of the final copy; only the fields the lookup
helpers read are carried. -/
structure ModulePub where
  name : String
  objectsByName : Option (List (String × ObjectTypePub))
  deriving DecidableEq

/-- Go `(*Module).GetObjectByName` (`types.go`): `nil` receiver or `nil`
map give `(nil, false)`. -/
def GetObjectByName (m : Option ModuleV1) (name : String) : Option ObjectTypePub × Bool :=
  match m with
  | none => (none, false)
  | some mm =>
    match mm.objectsByName with
    | none => (none, false)
    | some l =>
      let v := lookupA name l
      (v, v.isSome)

/-- Go `(*Module).GetNodeOIDByName` (`types.go`): on success the OID is a
defensive copy (value semantics here). -/
def GetNodeOIDByName (m : Option ModuleV1) (name : String) : Option (List Int) × Bool :=
  match m with
  | none => (none, false)
  | some mm =>
    match mm.nodesByName with
    | none => (none, false)
    | some l =>
      match lookupA name l with
      | none => (none, false)
      | some n => (some n.oid, true)

/-- Go `oidsEqual`. -/
def oidsEqual (a b : List Int) : Bool := a = b

/-- Go `(*Module).GetObjectByOID`: scan the objects map for an exact OID
match. -/
def GetObjectByOID (m : Option ModulePub) (oid : List Int) : Option ObjectTypePub × Bool :=
  match m with
  | none => (none, false)
  | some mm =>
    match mm.objectsByName with
    | none => (none, false)
    | some l =>
      match l.find? (fun p => oidsEqual p.2.oid oid) with
      | some p => (some p.2, true)
      | none => (none, false)

/-- Go `(*Module).GetObjectByOIDString`: scan for a matching rendered
OID. -/
def GetObjectByOIDString (m : Option ModulePub) (s : String) : Option ObjectTypePub × Bool :=
  match m with
  | none => (none, false)
  | some mm =>
    match mm.objectsByName with
    | none => (none, false)
    | some l =>
      match l.find? (fun p => oidToString p.2.oid = s) with
      | some p => (some p.2, true)
      | none => (none, false)

/-! ### Concrete inputs used by the end-to-end theorems -/

/-- Scenario S1: the minimal empty module. -/
def srcMinimal : String := "FOO DEFINITIONS ::= BEGIN\nEND\n"

/-- A module whose trailing `END` is missing. -/
def srcNoEnd : String := "FOO DEFINITIONS ::= BEGIN\n"

/-- A module in which `a`'s parent `b` only ever has an *empty*
placeholder entry (its own parent `imported` never resolves). -/
def srcEmptyParent : String :=
  "X DEFINITIONS ::= BEGIN\na OBJECT IDENTIFIER ::= \x7b b 1 \x7d\nb OBJECT IDENTIFIER ::= \x7b imported 2 \x7d\nEND\n"

/-- A module with a NOTIFICATION-TYPE declared mid-line (so the
line-anchored regex sweep does not see it). -/
def srcNotifMidLine : String :=
  "X DEFINITIONS ::= BEGIN\nb OBJECT IDENTIFIER ::= \x7b mib-2 1 \x7d foo NOTIFICATION-TYPE STATUS current ::= \x7b b 1 \x7d\nEND\n"

/-- A module that redeclares a parent after a child resolved against its
first OID. -/
def srcRedeclParent : String :=
  "X DEFINITIONS ::= BEGIN\np OBJECT IDENTIFIER ::= \x7b mib-2 1 \x7d\nc OBJECT IDENTIFIER ::= \x7b p 1 \x7d\np OBJECT IDENTIFIER ::= \x7b mib-2 2 \x7d\nEND\n"

/-- Scenario S3: an OBJECT-TYPE with an INDEX clause using `IMPLIED`. -/
def srcS3 : String :=
  "X DEFINITIONS ::= BEGIN\nfoo OBJECT-TYPE SYNTAX INTEGER MAX-ACCESS read-only STATUS current DESCRIPTION \"d\" INDEX \x7b IMPLIED a, b \x7d ::= \x7b mib-2 9 \x7d\nEND\n"

/-! ## C7 -/

/-- **C7** (confirmed).  The ten bootstrap names are installed with their
canonical OIDs in the parser's initial state, before parsing begins; and
parsing the minimal empty module `FOO DEFINITIONS ::= BEGIN\nEND\n`
yields name `FOO`, exactly those ten `nodes` entries, and all other
indexes empty. -/
theorem c7_bootstrap_and_minimal_module :
    initModule.nodesByName =
      [("iso", [1]), ("org", [1, 3]), ("dod", [1, 3, 6]), ("internet", [1, 3, 6, 1]),
       ("mgmt", [1, 3, 6, 1, 2]), ("mib-2", [1, 3, 6, 1, 2, 1]),
       ("private", [1, 3, 6, 1, 4]), ("enterprises", [1, 3, 6, 1, 4, 1]),
       ("snmpV2", [1, 3, 6, 1, 6]), ("snmpModules", [1, 3, 6, 1, 6, 3])] ∧
    Parse srcMinimal = .ok
      {name := "FOO",
       nodesByName :=
         [("iso", [1]), ("org", [1, 3]), ("dod", [1, 3, 6]), ("internet", [1, 3, 6, 1]),
          ("mgmt", [1, 3, 6, 1, 2]), ("mib-2", [1, 3, 6, 1, 2, 1]),
          ("private", [1, 3, 6, 1, 4]), ("enterprises", [1, 3, 6, 1, 4, 1]),
          ("snmpV2", [1, 3, 6, 1, 6]), ("snmpModules", [1, 3, 6, 1, 6, 3])],
       objectsByName := [], moduleIdentity := none, objectIdentities := [],
       textualConventions := [], notificationTypes := []} :=
  ⟨rfl, rfl⟩

/-! ## C1 -/

/-- **C1** (counterexample).  The claim says the parse fails whenever any
of the fixed header tokens is absent, *including the trailing `END`*.
On the concrete input `FOO DEFINITIONS ::= BEGIN\n` — whose trailing
`END` is absent — the parse succeeds, so the claim as stated is false:
the body loop simply stops at EOF without requiring `END`. -/
theorem c1_counterexample : parseOk srcNoEnd = true := rfl

/-- **C1** (amended).  The parse does fail, with an error naming the
missing token and carrying the offending token's source position, when
the module name, `DEFINITIONS`, the `::=`, or `BEGIN` is absent — for
*every* token stream and parser state; but a missing trailing `END` is
tolerated (the body loop ends at EOF), witnessed by the successful parse
of `FOO DEFINITIONS ::= BEGIN\n`. -/
theorem c1_amended :
    (∀ fuel ts m, ¬ (cur ts).kind = .ident →
      parseModule fuel ts m =
        .error (mkErr (cur ts).line (cur ts).col ("expected module name"))) ∧
    (∀ fuel t rest m, t.kind = .ident → ¬ isIdentTok (cur rest) "DEFINITIONS" →
      parseModule fuel (t :: rest) m =
        .error (mkErr (cur rest).line (cur rest).col ("expected DEFINITIONS"))) ∧
    (∀ fuel t d rest m, t.kind = .ident → isIdentTok d "DEFINITIONS" →
      ¬ (cur rest).kind = .colonColonEq →
      parseModule fuel (t :: d :: rest) m =
        .error (mkErr (cur rest).line (cur rest).col
          ("expected \x27::=\x27 after DEFINITIONS"))) ∧
    (∀ fuel t d q rest m, t.kind = .ident → isIdentTok d "DEFINITIONS" →
      q.kind = .colonColonEq → ¬ isIdentTok (cur rest) "BEGIN" →
      parseModule fuel (t :: d :: q :: rest) m =
        .error (mkErr (cur rest).line (cur rest).col ("expected BEGIN"))) ∧
    parseOk srcNoEnd = true := by
  refine ⟨?_, ?_, ?_, ?_, rfl⟩
  · intro fuel ts m h
    simp [parseModule, h, errAt]
  · intro fuel t rest m ht h
    have h' : isIdentTok (rest.head?.getD (eofAt 0 0)) "DEFINITIONS" = false := by
      simpa [cur] using h
    have hk : ¬ t.kind = TokKind.eof := by simp [ht]
    simp [parseModule, cur, ht, adv, hk, h', errAt]
  · intro fuel t d rest m ht hd h
    have h' : ¬ (rest.head?.getD (eofAt 0 0)).kind = TokKind.colonColonEq := by
      simpa [cur] using h
    have hk : ¬ t.kind = TokKind.eof := by simp [ht]
    have hdk : d.kind = TokKind.ident := by
      by_contra hc
      simp [isIdentTok, hc] at hd
    have hdk' : ¬ d.kind = TokKind.eof := by simp [hdk]
    simp [parseModule, cur, ht, adv, hk, hd, hdk', h', errAt]
  · intro fuel t d q rest m ht hd hq h
    have h' : isIdentTok (rest.head?.getD (eofAt 0 0)) "BEGIN" = false := by
      simpa [cur] using h
    have hk : ¬ t.kind = TokKind.eof := by simp [ht]
    have hdk : d.kind = TokKind.ident := by
      by_contra hc
      simp [isIdentTok, hc] at hd
    have hdk' : ¬ d.kind = TokKind.eof := by simp [hdk]
    have hqk : ¬ q.kind = TokKind.eof := by simp [hq]
    simp [parseModule, cur, ht, adv, hk, hd, hdk', hq, hqk, h', errAt]

/-- Closed witness for `c1_amended`: each header-error conjunct applied
at a concrete token, plus evaluation of the error strings. -/
theorem c1_amended_witness :
    parseModule 1 [⟨.number, "", 7, 1, 1⟩] initModule =
      .error ("parse error at 1:1: expected module name") ∧
    parseModule 1 [⟨.ident, "FOO", 0, 1, 1⟩, ⟨.number, "", 7, 1, 5⟩] initModule =
      .error ("parse error at 1:5: expected DEFINITIONS") ∧
    parseModule 1 [⟨.ident, "FOO", 0, 1, 1⟩, ⟨.ident, "DEFINITIONS", 0, 1, 5⟩,
        ⟨.ident, "BEGIN", 0, 1, 17⟩] initModule =
      .error ("parse error at 1:17: expected \x27::=\x27 after DEFINITIONS") ∧
    parseModule 1 [⟨.ident, "FOO", 0, 1, 1⟩, ⟨.ident, "DEFINITIONS", 0, 1, 5⟩,
        ⟨.colonColonEq, "::=", 0, 1, 20⟩, ⟨.number, "", 3, 1, 21⟩] initModule =
      .error ("parse error at 1:21: expected BEGIN") := by
  refine ⟨?_, ?_, ?_, ?_⟩
  · exact c1_amended.1 1 [⟨.number, "", 7, 1, 1⟩] initModule (by decide)
  · exact c1_amended.2.1 1 ⟨.ident, "FOO", 0, 1, 1⟩ [⟨.number, "", 7, 1, 5⟩] initModule
      rfl (by decide)
  · exact c1_amended.2.2.1 1 ⟨.ident, "FOO", 0, 1, 1⟩ ⟨.ident, "DEFINITIONS", 0, 1, 5⟩
      [⟨.ident, "BEGIN", 0, 1, 17⟩] initModule rfl (by decide) (by decide)
  · exact c1_amended.2.2.2.1 1 ⟨.ident, "FOO", 0, 1, 1⟩ ⟨.ident, "DEFINITIONS", 0, 1, 5⟩
      ⟨.colonColonEq, "::=", 0, 1, 20⟩ [⟨.number, "", 3, 1, 21⟩] initModule rfl
      (by decide) rfl (by decide)

/-! ## C2 -/

/-- **C2** (counterexample).  The claim says a pending closure fires only
when its parent has a *non-empty* `nodes` entry.  In `srcEmptyParent`,
`b`'s own parent `imported` never resolves, so `b` keeps its empty
placeholder entry forever — yet `a`'s closure (parent `b`, index 1)
fires, storing `nodes[a] = [] ++ [1] = [1]`.  Under the claim, `a` would
have kept its empty placeholder. -/
theorem c2_counterexample :
    (Parse srcEmptyParent).map
        (fun m => (lookupA ("a") m.nodesByName, lookupA ("b") m.nodesByName)) =
      .ok (some [1], some []) := rfl

/-- One pass over pending references fires nothing when no parent has
any `nodes` entry. -/
theorem resolvePass_none {pend : List PendingRef} {m : ModuleIR}
    (h : ∀ pr ∈ pend, lookupA pr.parent m.nodesByName = none) :
    resolvePass pend m = (m, pend, false) := by
  induction pend with
  | nil => rfl
  | cons pr rest ih =>
    have hpr := h pr (by simp)
    have hrest := ih (fun p hp => h p (by simp [hp]))
    simp [resolvePass, hpr, hrest]

/-- **C2** (amended).  In the post-parse fixed-point pass a pending
closure fires as soon as its parent name has *any* entry in `nodes` —
including an empty placeholder — and is invoked with that (possibly
empty) parent OID; the loop stops when a pass fires no closure, and the
still-unresolved references are then discarded without an error (the
module is returned unchanged by them). -/
theorem c2_amended :
    (∀ fuel pend m, (∀ pr ∈ pend, lookupA pr.parent m.nodesByName = none) →
      resolveLoop fuel pend m = m) ∧
    (∀ fuel pr m base, lookupA pr.parent m.nodesByName = some base →
      resolveLoop (fuel + 2) [pr] m = applyPend pr base m) := by
  constructor
  · intro fuel pend m h
    match fuel with
    | 0 => rfl
    | fuel + 1 =>
      match pend with
      | [] => rfl
      | pr :: rest => simp [resolveLoop, resolvePass_none h]
  · intro fuel pr m base h
    simp [resolveLoop, resolvePass, h]

/-- Closed witness for `c2_amended`: an unresolvable reference is
discarded without error, and a reference whose parent entry is the empty
placeholder fires with it. -/
theorem c2_amended_witness :
    resolveLoop 3 [⟨"q", 5, .node "z"⟩] initModule = initModule ∧
    resolveLoop 2 [⟨"b", 1, .node "a"⟩]
        {initModule with nodesByName := [("b", [])]} =
      applyPend ⟨"b", 1, .node "a"⟩ [] {initModule with nodesByName := [("b", [])]} := by
  constructor
  · exact c2_amended.1 3 [⟨"q", 5, .node "z"⟩] initModule (by decide)
  · exact c2_amended.2 0 ⟨"b", 1, .node "a"⟩
      {initModule with nodesByName := [("b", [])]} [] (by decide)

/-! ## C4 -/

/-- **C4** (counterexample).  The claim says that when no `\x7b` appears
the skip consumes "until the next semicolon or END".  First conjunct: on
`[; x END]` the skip runs *past* the semicolon (and past `x`) all the way
to `END` — under the claim it would have stopped at the semicolon,
leaving `x` unconsumed.  Second conjunct: the claim says that after a
`\x7b` the skip "returns when depth returns to zero", but an `END`
identifier stops it even inside open braces. -/
theorem c4_counterexample :
    skipDefinition [⟨.semicolon, ";", 0, 1, 1⟩, ⟨.ident, "x", 0, 1, 3⟩,
        ⟨.ident, "END", 0, 1, 5⟩] =
      [⟨.ident, "END", 0, 1, 5⟩] ∧
    skipDefinition [⟨.lbrace, "\x7b", 0, 1, 2⟩, ⟨.ident, "END", 0, 1, 3⟩,
        ⟨.rbrace, "\x7d", 0, 1, 7⟩, ⟨.ident, "x", 0, 1, 9⟩] =
      [⟨.ident, "END", 0, 1, 3⟩, ⟨.rbrace, "\x7d", 0, 1, 7⟩, ⟨.ident, "x", 0, 1, 9⟩] :=
  ⟨rfl, rfl⟩

/-- The skipped macro body is a tail of the input. -/
theorem skipMacroBody_isSuffix (ts : List Token) : skipMacroBody ts <:+ ts := by
  induction ts with
  | nil => exact List.suffix_refl _
  | cons t rest ih =>
    unfold skipMacroBody
    repeat' split
    any_goals exact List.suffix_refl _
    any_goals exact List.suffix_cons t rest
    all_goals exact ih.trans (List.suffix_cons t rest)

/-- The balanced-brace skip returns a tail of the input. -/
theorem skipBalanced_isSuffix (ts : List Token) :
    ∀ depth started, skipBalanced depth started ts <:+ ts := by
  induction ts with
  | nil => intro depth started; exact List.suffix_refl _
  | cons t rest ih =>
    intro depth started
    unfold skipBalanced
    split
    · exact List.suffix_refl _
    · split
      · exact List.suffix_refl _
      · split
        · exact (ih _ _).trans (List.suffix_cons t rest)
        · dsimp only
          split <;> split
          any_goals exact List.suffix_cons t rest
          all_goals exact (ih _ _).trans (List.suffix_cons t rest)
        · exact (ih _ _).trans (List.suffix_cons t rest)

/-- Consuming one token yields a tail of the input. -/
theorem adv_isSuffix (ts : List Token) : adv ts <:+ ts := by
  rcases ts with _ | ⟨t, rest⟩
  · exact List.suffix_refl _
  · simp only [adv]
    split
    · exact List.suffix_refl _
    · exact List.suffix_cons t rest

/-- `skipDefinition` returns a tail of the input: the skip only moves
forward, hence terminates and parsing continues after it. -/
theorem skipDefinition_isSuffix (ts : List Token) : skipDefinition ts <:+ ts := by
  unfold skipDefinition
  by_cases hm : isIdentTok (cur ts) "MACRO" = true
  · simp only [hm, if_true]
    have hsub : adv ts <:+ ts := adv_isSuffix ts
    generalize hl : adv ts = l at hsub ⊢
    rcases l with _ | ⟨t, rest⟩
    · exact (skipBalanced_isSuffix [] 0 false).trans hsub
    · have hrest : rest <:+ ts := (List.suffix_cons t rest).trans hsub
      dsimp only
      by_cases h2 : t.kind = TokKind.colonColonEq
      · simp only [h2, if_true]
        rcases rest with _ | ⟨b, rest2⟩
        · exact (skipBalanced_isSuffix [] 0 false).trans hrest
        · have hrest2 : rest2 <:+ ts := (List.suffix_cons b rest2).trans hrest
          dsimp only
          by_cases h4 : isIdentTok b "BEGIN" = true
          · simp only [h4, if_true]
            exact (skipMacroBody_isSuffix rest2).trans hrest2
          · simp only [h4, Bool.false_eq_true, if_false]
            exact (skipBalanced_isSuffix (b :: rest2) 0 false).trans hrest
      · simp only [h2, if_false]
        exact (skipBalanced_isSuffix (t :: rest) 0 false).trans hsub
  · simp only [hm, Bool.false_eq_true, if_false]
    exact skipBalanced_isSuffix ts 0 false

/-- What the amended claim says the skip does when no `\x7b` appears:
consume up to (but not including) the next `END` identifier or the end
of the stream. -/
def dropUntilEndTok : List Token → List Token
  | [] => []
  | t :: rest =>
    if t.kind = .eof then t :: rest
    else if isIdentTok t "END" then t :: rest
    else dropUntilEndTok rest

/-- With no left brace in the stream, the balanced skip just runs to the
next `END` (or the end). -/
theorem skipBalanced_noBrace (ts : List Token) (h : ∀ t ∈ ts, ¬ t.kind = TokKind.lbrace) :
    ∀ depth, skipBalanced depth false ts = dropUntilEndTok ts := by
  induction ts with
  | nil => intro depth; rfl
  | cons t rest ih =>
    intro depth
    have hrest := ih (fun x hx => h x (by simp [hx]))
    have ht := h t (by simp)
    unfold skipBalanced dropUntilEndTok
    by_cases h1 : t.kind = TokKind.eof
    · simp [h1]
    · by_cases h2 : isIdentTok t "END" = true
      · simp [h1, h2]
      · simp only [h1, h2, Bool.false_eq_true, if_false]
        match h3 : t.kind with
        | .lbrace => exact absurd h3 ht
        | .rbrace => simp [hrest]
        | .ident | .number | .str | .lparen | .rparen | .comma | .dot
        | .semicolon | .colonColonEq | .assignEq | .eof => exact hrest _

/-- A token that the depth-1 balanced skip passes over without effect. -/
def plainTok (t : Token) : Prop :=
  ¬ t.kind = TokKind.lbrace ∧ ¬ t.kind = TokKind.rbrace ∧ ¬ t.kind = TokKind.eof ∧
    ¬ isIdentTok t "END" = true

instance : DecidablePred plainTok := fun t => by
  unfold plainTok
  exact inferInstance

/-- After an opening brace, the skip consumes a plain-token body and the
closing brace, returning exactly the rest. -/
theorem skipBalanced_depthOne (inner : List Token) (h : ∀ t ∈ inner, plainTok t)
    (rb : Token) (hrb : rb.kind = TokKind.rbrace) (rest : List Token) :
    skipBalanced 1 true (inner ++ rb :: rest) = rest := by
  induction inner with
  | nil =>
    have hrb1 : ¬ rb.kind = TokKind.eof := by simp [hrb]
    have hrb2 : isIdentTok rb "END" = false := by simp [isIdentTok, hrb]
    simp [skipBalanced, hrb, hrb1, hrb2]
  | cons t inner ih =>
    obtain ⟨h1, h2, h3, h4⟩ := h t (by simp)
    have hrest := ih (fun x hx => h x (by simp [hx]))
    unfold skipBalanced
    simp only [List.cons_append, h3, h4, Bool.false_eq_true, if_false]
    match h5 : t.kind with
    | .lbrace => exact absurd h5 h1
    | .rbrace => exact absurd h5 h2
    | .eof => exact absurd h5 h3
    | .ident | .number | .str | .lparen | .rparen | .comma | .dot
    | .semicolon | .colonColonEq | .assignEq => exact hrest

/-- **C4** (amended).  On an unrecognized top-level introducer the parser
skips forward only (the remainder is a tail of the input, so the skip
terminates and parsing continues); it consumes tokens until the first
`\x7b`, then tracks brace depth and returns when depth returns to zero
(stopping early at an `END` identifier); if no `\x7b` appears it
consumes until the next `END` identifier or the end of the stream —
semicolons do *not* stop the skip. -/
theorem c4_amended :
    (∀ ts, skipDefinition ts <:+ ts) ∧
    (∀ ts, isIdentTok (cur ts) "MACRO" = false →
      (∀ t ∈ ts, ¬ t.kind = TokKind.lbrace) →
      skipDefinition ts = dropUntilEndTok ts) ∧
    (∀ pre lb inner rb rest,
      (∀ t ∈ pre, plainTok t ∧ ¬ isIdentTok t "MACRO" = true) →
      lb.kind = TokKind.lbrace → (∀ t ∈ inner, plainTok t) → rb.kind = TokKind.rbrace →
      skipDefinition (pre ++ lb :: inner ++ rb :: rest) = rest) := by
  refine ⟨skipDefinition_isSuffix, ?_, ?_⟩
  · intro ts hm h
    unfold skipDefinition
    simp only [hm, Bool.false_eq_true, if_false]
    exact skipBalanced_noBrace ts h 0
  · intro pre lb inner rb rest hpre hlb hinner hrb
    have key : ∀ pre', (∀ t ∈ pre', plainTok t) →
        skipBalanced 0 false (pre' ++ lb :: inner ++ rb :: rest) = rest := by
      intro pre' hp
      induction pre' with
      | nil =>
        have hlb1 : ¬ lb.kind = TokKind.eof := by simp [hlb]
        have hlb2 : isIdentTok lb "END" = false := by simp [isIdentTok, hlb]
        have := skipBalanced_depthOne inner hinner rb hrb rest
        simp only [List.nil_append, skipBalanced, hlb1, hlb2, Bool.false_eq_true,
          if_false, hlb]
        exact this
      | cons t pre' ih =>
        obtain ⟨h1, h2, h3, h4⟩ := hp t (by simp)
        have hrest := ih (fun x hx => hp x (by simp [hx]))
        unfold skipBalanced
        simp only [List.cons_append, h3, h4, Bool.false_eq_true, if_false]
        match h5 : t.kind with
        | .lbrace => exact absurd h5 h1
        | .rbrace => exact absurd h5 h2
        | .eof => exact absurd h5 h3
        | .ident | .number | .str | .lparen | .rparen | .comma | .dot
        | .semicolon | .colonColonEq | .assignEq => exact hrest
    have hm : isIdentTok (cur (pre ++ lb :: inner ++ rb :: rest)) "MACRO" = false := by
      match h6 : pre with
      | [] => simp [cur, isIdentTok, hlb]
      | t :: pre' =>
        have := (hpre t (by simp [h6])).2
        simpa [cur] using (by simpa using this)
    unfold skipDefinition
    simp only [hm, Bool.false_eq_true, if_false]
    exact key pre (fun t ht => (hpre t ht).1)

/-- Closed witness for `c4_amended`: the no-brace conjunct stops at
`END`, and the balanced conjunct skips a one-level brace group. -/
theorem c4_amended_witness :
    skipDefinition [⟨.ident, "a", 0, 1, 1⟩, ⟨.ident, "END", 0, 1, 3⟩] =
      [⟨.ident, "END", 0, 1, 3⟩] ∧
    skipDefinition [⟨.ident, "a", 0, 1, 1⟩, ⟨.lbrace, "\x7b", 0, 1, 3⟩,
        ⟨.number, "", 4, 1, 5⟩, ⟨.rbrace, "\x7d", 0, 1, 7⟩, ⟨.ident, "z", 0, 1, 9⟩] =
      [⟨.ident, "z", 0, 1, 9⟩] := by
  constructor
  · have := c4_amended.2.1 [⟨.ident, "a", 0, 1, 1⟩, ⟨.ident, "END", 0, 1, 3⟩]
      (by decide) (by decide)
    simpa using this
  · have := c4_amended.2.2 [⟨.ident, "a", 0, 1, 1⟩] ⟨.lbrace, "\x7b", 0, 1, 3⟩
      [⟨.number, "", 4, 1, 5⟩] ⟨.rbrace, "\x7d", 0, 1, 7⟩ [⟨.ident, "z", 0, 1, 9⟩]
      (by decide) rfl (by decide) rfl
    simpa using this

/-! ## C5 -/

/-- A name ensured by `ensureNode` has a `nodesByName` entry. -/
theorem containsKey_ensureNode (name : String) (m : ModuleIR) :
    containsKey name (ensureNode name m).nodesByName = true := by
  by_cases h : containsKey name m.nodesByName <;>
    simp [ensureNode, h, containsKey_insertA_self]

/-- The NOTIFICATION-TYPE `::=` tail leaves `nodesByName` and
`objectsByName` untouched and stores the record under its name. -/
theorem finishNotif_frame : ∀ nt ts m pend ts' m' pend',
    finishNotif nt ts m pend = .ok (ts', m', pend') →
    m'.nodesByName = m.nodesByName ∧ m'.objectsByName = m.objectsByName ∧
      containsKey nt.name m'.notificationTypes = true := by
  intro nt ts m pend ts' m' pend' h
  unfold finishNotif at h
  try dsimp only at h
  repeat' split at h
  all_goals first
    | exact Except.noConfusion h
    | (obtain ⟨rfl, rfl, rfl⟩ := by simpa only [Except.ok.injEq, Prod.mk.injEq] using h
       exact ⟨rfl, rfl, containsKey_insertA_self _ _ _⟩)

/-- A successful NOTIFICATION-TYPE parse leaves `nodesByName` (and
`objectsByName`) untouched and stores the record under its name in
`notificationTypes`. -/
theorem parseNotifLoop_frame : ∀ fuel nt ts m pend ts' m' pend',
    parseNotifLoop fuel nt ts m pend = .ok (ts', m', pend') →
    m'.nodesByName = m.nodesByName ∧ m'.objectsByName = m.objectsByName ∧
      containsKey nt.name m'.notificationTypes = true := by
  intro fuel
  induction fuel with
  | zero =>
    intro nt ts m pend ts' m' pend' h
    exact Except.noConfusion h
  | succ fuel ih =>
    intro nt ts m pend ts' m' pend' h
    unfold parseNotifLoop at h
    try dsimp only at h
    repeat' split at h
    all_goals first
      | exact Except.noConfusion h
      | (have hres := ih _ _ _ _ _ _ _ h; exact ⟨hres.1, hres.2.1, hres.2.2⟩)
      | exact finishNotif_frame _ _ _ _ _ _ _ h

/-- Firing a pending NOTIFICATION-TYPE closure touches only
`notificationTypes`. -/
theorem applyPend_notif_frame (pr : PendingRef) (r0 : NotificationTypeIR)
    (base : List Int) (m : ModuleIR) (h : pr.target = .notif r0) :
    (applyPend pr base m).nodesByName = m.nodesByName := by
  simp [applyPend, h]

/-- The OBJECT-TYPE `::=` tail registers the object's name in
`nodesByName` (all three outcomes write or ensure the node entry). -/
theorem finishObjType_registers : ∀ obj ts m pend ts' m' pend',
    finishObjType obj ts m pend = .ok (ts', m', pend') →
    containsKey obj.name m'.nodesByName = true := by
  intro obj ts m pend ts' m' pend' h
  unfold finishObjType at h
  try dsimp only at h
  repeat' split at h
  all_goals first
    | exact Except.noConfusion h
    | (obtain ⟨rfl, rfl, rfl⟩ := by simpa only [Except.ok.injEq, Prod.mk.injEq] using h
       first
       | exact containsKey_insertA_self _ _ _
       | exact containsKey_ensureNode _ _)

/-- A successful OBJECT-TYPE parse registers the object's name in
`nodesByName`. -/
theorem parseObjectTypeLoop_registers : ∀ fuel obj ts m pend ts' m' pend',
    parseObjectTypeLoop fuel obj ts m pend = .ok (ts', m', pend') →
    containsKey obj.name m'.nodesByName = true := by
  intro fuel
  induction fuel with
  | zero =>
    intro obj ts m pend ts' m' pend' h
    exact Except.noConfusion h
  | succ fuel ih =>
    intro obj ts m pend ts' m' pend' h
    unfold parseObjectTypeLoop at h
    try dsimp only at h
    repeat' split at h
    all_goals first
      | exact Except.noConfusion h
      | (have hres := ih _ _ _ _ _ _ _ h; exact hres)
      | exact finishObjType_registers _ _ _ _ _ _ _ h

/-- **C5** (confirmed).  Resolving a NOTIFICATION-TYPE declaration stores
the record under its name in `notificationTypes` but never writes the
name into `nodesByName` (the whole clause loop leaves `nodesByName`
unchanged, and so does firing a pending notification closure) — unlike
OBJECT-TYPE, whose successful parse always registers its name in
`nodesByName`. -/
theorem c5_notification_frame :
    (∀ fuel nt ts m pend ts' m' pend',
      parseNotifLoop fuel nt ts m pend = .ok (ts', m', pend') →
      m'.nodesByName = m.nodesByName ∧
        containsKey nt.name m'.notificationTypes = true) ∧
    (∀ pr r0 base m, pr.target = .notif r0 →
      (applyPend pr base m).nodesByName = m.nodesByName) ∧
    (∀ fuel obj ts m pend ts' m' pend',
      parseObjectTypeLoop fuel obj ts m pend = .ok (ts', m', pend') →
      containsKey obj.name m'.nodesByName = true) := by
  refine ⟨?_, applyPend_notif_frame, parseObjectTypeLoop_registers⟩
  intro fuel nt ts m pend ts' m' pend' h
  have := parseNotifLoop_frame fuel nt ts m pend ts' m' pend' h
  exact ⟨this.1, this.2.2⟩

/-- Closed witness for `c5_notification_frame`: a concrete
NOTIFICATION-TYPE resolution (`::= \x7b 1 \x7d`) leaves the bootstrap
`nodesByName` unchanged and stores the record; a concrete pending
notification closure fires without touching `nodesByName`; a concrete
OBJECT-TYPE resolution registers its name. -/
theorem c5_notification_frame_witness :
    (({name := "", nodesByName := baseOids, objectsByName := [], moduleIdentity := none,
       objectIdentities := [], textualConventions := [],
       notificationTypes := [("n1", {newNotif ("n1") with oid := [1]})]} :
        ModuleIR).nodesByName = initModule.nodesByName ∧
      containsKey ("n1")
        ({name := "", nodesByName := baseOids, objectsByName := [], moduleIdentity := none,
          objectIdentities := [], textualConventions := [],
          notificationTypes := [("n1", {newNotif ("n1") with oid := [1]})]} :
          ModuleIR).notificationTypes = true) ∧
    (applyPend ⟨"b", 1, .notif (newNotif ("n1"))⟩ [9] initModule).nodesByName =
      initModule.nodesByName ∧
    containsKey ("o1")
      ({name := "", nodesByName := insertA ("o1") [1] baseOids,
        objectsByName := [("o1", {newObjType ("o1") with oid := [1]})],
        moduleIdentity := none, objectIdentities := [], textualConventions := [],
        notificationTypes := []} : ModuleIR).nodesByName = true := by
  refine ⟨?_, ?_, ?_⟩
  · exact c5_notification_frame.1 1 (newNotif ("n1"))
      [⟨.colonColonEq, "::=", 0, 1, 1⟩, ⟨.lbrace, "\x7b", 0, 1, 5⟩, ⟨.number, "", 1, 1, 7⟩,
       ⟨.rbrace, "\x7d", 0, 1, 9⟩] initModule [] [] _ [] rfl
  · exact c5_notification_frame.2.1 ⟨"b", 1, .notif (newNotif ("n1"))⟩ _ [9] initModule rfl
  · exact c5_notification_frame.2.2 1 (newObjType ("o1"))
      [⟨.colonColonEq, "::=", 0, 1, 1⟩, ⟨.lbrace, "\x7b", 0, 1, 5⟩, ⟨.number, "", 1, 1, 7⟩,
       ⟨.rbrace, "\x7d", 0, 1, 9⟩] initModule [] [] _ [] rfl

/-! ## C6 -/

set_option maxRecDepth 4000 in
/-- **C6** (counterexample).  In `srcRedeclParent`, `c`'s symbolic parent
reference `(p, 1)` resolved to the non-empty OID `1.3.6.1.2.1.1`, but `p`
is then redeclared; in the final module `nodes[c] = 1.3.6.1.2.1.1.1`
while `nodes[p] ++ [1] = 1.3.6.1.2.1.2.1`, so the claim's equation
`oid = nodes[p] ++ [i]` fails on the result. -/
theorem c6_counterexample :
    (Parse srcRedeclParent).map
        (fun m => (lookupA ("c") m.nodesByName, lookupA ("p") m.nodesByName)) =
      .ok (some [1, 3, 6, 1, 2, 1, 1, 1], some [1, 3, 6, 1, 2, 1, 2]) ∧
    ¬ ([1, 3, 6, 1, 2, 1, 1, 1] : List Int) = [1, 3, 6, 1, 2, 1, 2] ++ [1] :=
  ⟨rfl, by decide⟩

/-- **C6** (amended).  Whenever a symbolic parent reference `(p, i)` is
resolved (via `resolveOidBase`) at declaration time, the base is exactly
the *current* `nodes` entry of `p` and is non-empty, and the stored OID
is that base followed by exactly the written index: `base ++ [i]` — both
for `OBJECT IDENTIFIER` aliases and for OBJECT-TYPE declarations.  The
final-module equation `oid = nodes[p] ++ [i]` of the original claim
holds only while `p`'s entry is not overwritten afterwards. -/
theorem c6_amended :
    (∀ m p base, resolveOidBase m p = some base →
      lookupA p m.nodesByName = some base ∧ ¬ base = []) ∧
    (∀ (ident : String) m pend base idTok q lb pTok nTok rb rest,
      isIdentTok idTok "IDENTIFIER" = true → q.kind = TokKind.colonColonEq →
      lb.kind = TokKind.lbrace → pTok.kind = TokKind.ident →
      nTok.kind = TokKind.number → rb.kind = TokKind.rbrace →
      resolveOidBase m pTok.text = some base →
      parseObjIdentifierDecl ident (idTok :: q :: lb :: pTok :: nTok :: rb :: rest) m pend =
        .ok (rest,
          {m with nodesByName := insertA ident (base ++ [nTok.int]) m.nodesByName},
          pend)) ∧
    (∀ obj m pend base lb pTok nTok rb rest,
      lb.kind = TokKind.lbrace → pTok.kind = TokKind.ident →
      nTok.kind = TokKind.number → rb.kind = TokKind.rbrace →
      resolveOidBase m pTok.text = some base →
      finishObjType obj (lb :: pTok :: nTok :: rb :: rest) m pend =
        .ok (rest, storeObjType {obj with oid := base ++ [nTok.int]} m, pend)) := by
  refine ⟨?_, ?_, ?_⟩
  · intro m p base h
    unfold resolveOidBase at h
    split at h
    · rename_i base0 heq
      split at h
      · obtain rfl := Option.some.inj h
        rename_i hne
        exact ⟨heq, by simpa using hne⟩
      · exact Option.noConfusion h
    · exact Option.noConfusion h
  · intro ident m pend base idTok q lb pTok nTok rb rest hid hq hlb hp hn hrb hres
    have hidk : idTok.kind = TokKind.ident := by
      by_contra hc
      simp [isIdentTok, hc] at hid
    have hid' : ¬ idTok.kind = TokKind.eof := by simp [hidk]
    have hq' : ¬ q.kind = TokKind.eof := by simp [hq]
    have hlb' : ¬ lb.kind = TokKind.eof := by simp [hlb]
    have hpnum : ¬ pTok.kind = TokKind.number := by simp [hp]
    have hndot : ¬ nTok.kind = TokKind.dot := by simp [hn]
    have hnlp : ¬ nTok.kind = TokKind.lparen := by simp [hn]
    simp [parseObjIdentifierDecl, cur, adv, hid, hid', hq, hq', hlb, hlb', hrb,
      parseOidInBraces, parseParentRef, parseParentRefIdx, hp, hpnum, hndot, hnlp, hn,
      hres]
  · intro obj m pend base lb pTok nTok rb rest hlb hp hn hrb hres
    have hlb' : ¬ lb.kind = TokKind.eof := by simp [hlb]
    have hpnum : ¬ pTok.kind = TokKind.number := by simp [hp]
    have hndot : ¬ nTok.kind = TokKind.dot := by simp [hn]
    have hnlp : ¬ nTok.kind = TokKind.lparen := by simp [hn]
    simp [finishObjType, cur, adv, hlb, hlb', hrb, parseOidInBraces, parseParentRef,
      parseParentRefIdx, hp, hpnum, hndot, hnlp, hn, hres]

/-- Closed witness for `c6_amended`: a concrete alias `x ::= \x7b mib-2 7 \x7d`
resolved against the bootstrap nodes. -/
theorem c6_amended_witness :
    (lookupA ("mib-2") initModule.nodesByName = some [1, 3, 6, 1, 2, 1] ∧
      ¬ ([1, 3, 6, 1, 2, 1] : List Int) = []) ∧
    parseObjIdentifierDecl ("x")
        [⟨.ident, "IDENTIFIER", 0, 1, 3⟩, ⟨.colonColonEq, "::=", 0, 1, 14⟩,
         ⟨.lbrace, "\x7b", 0, 1, 16⟩, ⟨.ident, "mib-2", 0, 1, 18⟩, ⟨.number, "", 7, 1, 24⟩,
         ⟨.rbrace, "\x7d", 0, 1, 26⟩] initModule [] =
      .ok ([],
        {initModule with
          nodesByName := insertA ("x") ([1, 3, 6, 1, 2, 1] ++ [7]) initModule.nodesByName},
        []) := by
  constructor
  · exact c6_amended.1 initModule ("mib-2") [1, 3, 6, 1, 2, 1] rfl
  · exact c6_amended.2.1 ("x") initModule [] [1, 3, 6, 1, 2, 1]
      ⟨.ident, "IDENTIFIER", 0, 1, 3⟩ ⟨.colonColonEq, "::=", 0, 1, 14⟩
      ⟨.lbrace, "\x7b", 0, 1, 16⟩ ⟨.ident, "mib-2", 0, 1, 18⟩ ⟨.number, "", 7, 1, 24⟩
      ⟨.rbrace, "\x7d", 0, 1, 26⟩ [] (by decide) rfl rfl rfl rfl rfl rfl

/-! ## C8 -/

/-- The token stream of `srcS3` (verified by `s3_tokenize`); evaluating
the parser over this literal list keeps kernel reduction linear. -/
def s3Toks : List Token :=
  [⟨.ident, "X", 0, 1, 1⟩, ⟨.ident, "DEFINITIONS", 0, 1, 3⟩, ⟨.colonColonEq, "::=", 0, 1, 18⟩,
   ⟨.ident, "BEGIN", 0, 1, 19⟩, ⟨.ident, "foo", 0, 2, 1⟩, ⟨.ident, "OBJECT-TYPE", 0, 2, 5⟩,
   ⟨.ident, "SYNTAX", 0, 2, 17⟩, ⟨.ident, "INTEGER", 0, 2, 24⟩, ⟨.ident, "MAX-ACCESS", 0, 2, 32⟩,
   ⟨.ident, "read-only", 0, 2, 43⟩, ⟨.ident, "STATUS", 0, 2, 53⟩, ⟨.ident, "current", 0, 2, 60⟩,
   ⟨.ident, "DESCRIPTION", 0, 2, 68⟩, ⟨.str, "d", 0, 2, 80⟩, ⟨.ident, "INDEX", 0, 2, 84⟩,
   ⟨.lbrace, "\x7b", 0, 2, 91⟩, ⟨.ident, "IMPLIED", 0, 2, 92⟩, ⟨.ident, "a", 0, 2, 100⟩,
   ⟨.comma, ",", 0, 2, 102⟩, ⟨.ident, "b", 0, 2, 103⟩, ⟨.rbrace, "\x7d", 0, 2, 106⟩,
   ⟨.colonColonEq, "::=", 0, 2, 110⟩, ⟨.lbrace, "\x7b", 0, 2, 112⟩, ⟨.ident, "mib-2", 0, 2, 113⟩,
   ⟨.number, "", 9, 2, 119⟩, ⟨.rbrace, "\x7d", 0, 2, 122⟩, ⟨.ident, "END", 0, 3, 1⟩,
   ⟨.eof, "", 0, 4, 1⟩]

set_option maxRecDepth 8000 in
/-- `srcS3` tokenizes to the literal list above. -/
theorem s3_tokenize : tokenize srcS3 = s3Toks := by rfl

/-- The IMPLIED marker spelling matches itself under the parser's
case-insensitive comparison. -/
theorem goEqualFold_IMPLIED : goEqualFold ("IMPLIED") ("IMPLIED") = true := by decide

/-- The tokens of one INDEX entry: an optional `IMPLIED` marker before
the identifier. -/
def indexEntryToks (e : Bool × String) : List Token :=
  (if e.1 then [⟨.ident, "IMPLIED", 0, 0, 0⟩] else []) ++ [⟨.ident, e.2, 0, 0, 0⟩]

/-- The tokens of a comma-separated INDEX entry list. -/
def indexToks : List (Bool × String) → List Token
  | [] => []
  | [e] => indexEntryToks e
  | e :: es => indexEntryToks e ++ ⟨.comma, ",", 0, 0, 0⟩ :: indexToks es

set_option maxRecDepth 8000 in
set_option maxHeartbeats 1000000 in
/-- **C8** (confirmed).  In an INDEX clause every `IMPLIED` marker
preceding an entry is consumed and dropped, and the stored index is the
ordered sequence of the plain identifier names — for every entry list
whose names are not themselves spelled `IMPLIED`; and on the concrete S3
input the parsed object has `index = [a, b]`,
`oid = [1,3,6,1,2,1,9]`, and its name registered in `nodes`. -/
theorem c8_index_implied :
    (∀ entries rest acc, (∀ e ∈ entries, goEqualFold e.2 "IMPLIED" = false) →
      parseIndexList (indexToks entries ++ ⟨.rbrace, "\x7d", 0, 0, 0⟩ :: rest) acc =
        .ok (acc ++ entries.map (fun e => e.2), rest)) ∧
    (Parse srcS3).map (fun m =>
        ((lookupA ("foo") m.objectsByName).map (fun o => (o.index, o.oid)),
         containsKey ("foo") m.nodesByName)) =
      .ok (some ((["a", "b"], [1, 3, 6, 1, 2, 1, 9])), true) := by
  constructor
  · intro entries
    induction entries with
    | nil =>
      intro rest acc _
      unfold indexToks
      rw [List.nil_append]
      unfold parseIndexList
      simp
    | cons e es ih =>
      obtain ⟨imp, name⟩ := e
      intro rest acc hnames
      have hname : goEqualFold name "IMPLIED" = false := hnames (imp, name) (by simp)
      have hrest : ∀ e ∈ es, goEqualFold e.2 "IMPLIED" = false :=
        fun e he => hnames e (by simp [he])
      match es, hrest with
      | [], _ =>
        cases imp <;>
          simp [indexToks, indexEntryToks, parseIndexList, hname, goEqualFold_IMPLIED]
      | e2 :: es2, hrest =>
        have := ih rest (acc ++ [name]) hrest
        cases imp <;>
          simp [indexToks, indexEntryToks, parseIndexList, hname, goEqualFold_IMPLIED,
            this]
  · simp only [Parse, s3_tokenize]
    rfl

/-- Closed witness for `c8_index_implied`: the list `IMPLIED a, b`
parses to the plain names `[a, b]`. -/
theorem c8_index_implied_witness :
    parseIndexList (indexToks [(true, "a"), (false, "b")] ++
        ⟨.rbrace, "\x7d", 0, 0, 0⟩ :: []) [] =
      .ok (["a", "b"], []) := by
  have := c8_index_implied.1 [(true, "a"), (false, "b")] [] [] (by decide)
  simpa using this

/-! ## C10 -/

/-- **C10** (confirmed).  The four lookup helpers are total: on a `nil`
module pointer or a `nil` queried map each returns `(nil, false)`; when
the module and map are present, each returns the plain (map- or
scan-based) lookup result, so no `nil` map is ever accessed. -/
theorem c10_lookup_totality :
    (∀ name, GetObjectByName none name = (none, false)) ∧
    (∀ nm nodes name, GetObjectByName (some ⟨nm, nodes, none⟩) name = (none, false)) ∧
    (∀ nm nodes objs name, GetObjectByName (some ⟨nm, nodes, some objs⟩) name =
      (lookupA name objs, (lookupA name objs).isSome)) ∧
    (∀ name, GetNodeOIDByName none name = (none, false)) ∧
    (∀ nm objs name, GetNodeOIDByName (some ⟨nm, none, objs⟩) name = (none, false)) ∧
    (∀ nm nodes objs name, GetNodeOIDByName (some ⟨nm, some nodes, objs⟩) name =
      (match lookupA name nodes with
       | none => (none, false)
       | some n => (some n.oid, true))) ∧
    (∀ oid, GetObjectByOID none oid = (none, false)) ∧
    (∀ nm oid, GetObjectByOID (some ⟨nm, none⟩) oid = (none, false)) ∧
    (∀ nm objs oid, GetObjectByOID (some ⟨nm, some objs⟩) oid =
      (match objs.find? (fun p => oidsEqual p.2.oid oid) with
       | some p => (some p.2, true)
       | none => (none, false))) ∧
    (∀ s, GetObjectByOIDString none s = (none, false)) ∧
    (∀ nm s, GetObjectByOIDString (some ⟨nm, none⟩) s = (none, false)) ∧
    (∀ nm objs s, GetObjectByOIDString (some ⟨nm, some objs⟩) s =
      (match objs.find? (fun p => oidToString p.2.oid = s) with
       | some p => (some p.2, true)
       | none => (none, false))) :=
  ⟨fun _ => rfl, fun _ _ _ => rfl, fun _ _ _ _ => rfl, fun _ => rfl, fun _ _ _ => rfl,
   fun _ _ _ _ => rfl, fun _ => rfl, fun _ _ => rfl, fun _ _ _ => rfl, fun _ => rfl,
   fun _ _ => rfl, fun _ _ _ => rfl⟩

/-! ## C9 -/

/-- The decimal digit characters are digits, carry value `48 + d`, and
are never a dot. -/
theorem digitChar_spec (d : Nat) (h : d < 10) :
    (digitChar d).isDigit = true ∧ (digitChar d).toNat = 48 + d ∧ ¬ digitChar d = '.' := by
  interval_cases d <;> exact ⟨by decide, by decide, by decide⟩

/-- The decimal rendering of a natural number is never empty. -/
theorem natDecL_ne_nil (n : Nat) : ¬ natDecL n = [] := by
  unfold natDecL
  by_cases h : n = 0
  · simp [h]
  · simp only [h, if_false]
    intro hc
    have : Nat.digits 10 n = [] := by
      have := congrArg List.length hc
      simpa using this
    exact absurd this (Nat.digits_ne_nil_iff_ne_zero.mpr h)

/-- Every character of a decimal rendering is a digit (hence not `.`). -/
theorem natDecL_chars (n : Nat) :
    ∀ c ∈ natDecL n, c.isDigit = true ∧ ¬ c = '.' := by
  intro c hc
  unfold natDecL at hc
  by_cases h : n = 0
  · simp [h] at hc
    subst hc
    exact ⟨by decide, by decide⟩
  · simp only [h, if_false, List.mem_map, List.mem_reverse] at hc
    obtain ⟨d, hd, rfl⟩ := hc
    have hlt : d < 10 := Nat.digits_lt_base (by norm_num) hd
    exact ⟨(digitChar_spec d hlt).1, (digitChar_spec d hlt).2.2⟩

/-- The accumulator form of the decimal re-parsing fold. -/
theorem foldVal (ds : List Nat) (h : ∀ d ∈ ds, d < 10) : ∀ a : Nat,
    ((ds.reverse.map digitChar).foldl (fun acc c => 10 * acc + (c.toNat - 48)) a) =
      a * 10 ^ ds.length + Nat.ofDigits 10 ds := by
  induction ds with
  | nil => intro a; simp
  | cons d t ih =>
    intro a
    have hd : d < 10 := h d (by simp)
    have ht : ∀ x ∈ t, x < 10 := fun x hx => h x (by simp [hx])
    rw [List.reverse_cons, List.map_append, List.foldl_append]
    have hdg : (digitChar d).toNat - 48 = d := by
      rw [(digitChar_spec d hd).2.1]
      omega
    simp only [ih ht a, List.map_cons, List.map_nil, List.foldl_cons, List.foldl_nil,
      hdg, Nat.ofDigits_cons, List.length_cons]
    ring

/-- Re-parsing a decimal rendering recovers the number. -/
theorem parseDecNat_natDecL (n : Nat) : parseDecNat (natDecL n) = some n := by
  by_cases h : n = 0
  · subst h; decide
  · have hall : (natDecL n).all Char.isDigit = true :=
      List.all_eq_true.mpr (fun c hc => (natDecL_chars n c hc).1)
    unfold parseDecNat
    rw [if_neg (natDecL_ne_nil n), if_pos hall]
    unfold natDecL
    simp only [h, if_false]
    rw [foldVal (Nat.digits 10 n) (fun d hd => Nat.digits_lt_base (by norm_num) hd) 0]
    simp [Nat.ofDigits_digits]

/-- For a non-negative integer the rendering is the natural rendering. -/
theorem intDecL_nonneg (i : Int) (h : 0 ≤ i) : intDecL i = natDecL i.toNat := by
  unfold intDecL
  rw [if_neg (by omega)]

/-- Re-parsing the rendering of a non-negative integer recovers it. -/
theorem parse_intDecL (i : Int) (h : 0 ≤ i) :
    (parseDecNat (intDecL i)).map Int.ofNat = some i := by
  rw [intDecL_nonneg i h, parseDecNat_natDecL]
  simp [Int.toNat_of_nonneg h]

/-- A dot-free chunk splits to itself. -/
theorem splitDot_nodot (p : List Char) (h : '.' ∉ p) : splitDotL p = [p] := by
  induction p with
  | nil => rfl
  | cons c r ih =>
    have hc : ¬ c = '.' := fun hcc => h (by simp [hcc])
    have hr : '.' ∉ r := fun hrr => h (by simp [hrr])
    unfold splitDotL
    rw [if_neg hc, ih hr]

/-- Splitting after a dot-free prefix peels it off. -/
theorem splitDot_append (p t : List Char) (h : '.' ∉ p) :
    splitDotL (p ++ '.' :: t) = p :: splitDotL t := by
  induction p with
  | nil => simp [splitDotL]
  | cons c r ih =>
    have hc : ¬ c = '.' := fun hcc => h (by simp [hcc])
    have hr : '.' ∉ r := fun hrr => h (by simp [hrr])
    simp only [List.cons_append]
    conv_lhs => unfold splitDotL
    rw [if_neg hc, ih hr]

/-- Splitting a dot-join of dot-free chunks recovers the chunks. -/
theorem splitDot_joinDot : ∀ parts : List (List Char), ¬ parts = [] →
    (∀ p ∈ parts, '.' ∉ p) → splitDotL (joinDotL parts) = parts := by
  intro parts
  induction parts with
  | nil => intro h; exact absurd rfl h
  | cons p ps ih =>
    intro _ hdot
    have hp : '.' ∉ p := hdot p (by simp)
    match ps, ih with
    | [], _ => exact splitDot_nodot p hp
    | q :: ps2, ih =>
      have hrest : ∀ x ∈ q :: ps2, '.' ∉ x := fun x hx => hdot x (by simp [hx])
      show splitDotL (p ++ '.' :: joinDotL (q :: ps2)) = _
      rw [splitDot_append p _ hp, ih (by simp) hrest]

/-- `mapOpt` over a rendered list recovers the originals. -/
theorem mapOpt_map {α β γ : Type} (f : β → Option γ) (g : α → β) (h : α → γ) :
    ∀ l : List α, (∀ x ∈ l, f (g x) = some (h x)) →
      mapOpt f (l.map g) = some (l.map h) := by
  intro l
  induction l with
  | nil => intro _; rfl
  | cons x xs ih =>
    intro hf
    have hx := hf x (by simp)
    have hxs := ih (fun y hy => hf y (by simp [hy]))
    simp [mapOpt, hx, hxs]

/-- A `getLast?` value is a member. -/
theorem getLast_mem {α : Type} : ∀ (l : List α) (c : α), l.getLast? = some c → c ∈ l := by
  intro l
  induction l with
  | nil => intro c hc; exact Option.noConfusion hc
  | cons x xs ih =>
    intro c hc
    match xs, ih, hc with
    | [], _, hc => simp at hc; simp [hc]
    | y :: ys, ih, hc =>
      have : (y :: ys).getLast? = some c := by
        rw [List.getLast?_cons_cons] at hc
        exact hc
      exact List.mem_cons_of_mem x (ih c this)

/-- The head of a dot-join is the head of its first chunk. -/
theorem joinDot_head (p : List Char) (ps : List (List Char)) (hp : ¬ p = []) :
    (joinDotL (p :: ps)).head? = p.head? := by
  match ps with
  | [] => rfl
  | q :: ps2 =>
    show (p ++ '.' :: joinDotL (q :: ps2)).head? = p.head?
    match p, hp with
    | c :: r, _ => simp

/-- The last character of a dot-join of nonempty dot-free chunks is in
its last chunk, hence never a dot. -/
theorem joinDot_getLast : ∀ parts : List (List Char), ¬ parts = [] →
    (∀ p ∈ parts, '.' ∉ p ∧ ¬ p = []) →
    ¬ (joinDotL parts).getLast? = some '.' := by
  intro parts
  induction parts with
  | nil => intro h; exact absurd rfl h
  | cons p ps ih =>
    intro _ hps
    obtain ⟨hpd, hpn⟩ := hps p (by simp)
    match ps, ih with
    | [], _ =>
      show ¬ (joinDotL [p]).getLast? = some '.'
      intro hc
      exact hpd (getLast_mem p '.' hc)
    | q :: ps2, ih =>
      have hrest : ∀ x ∈ q :: ps2, '.' ∉ x ∧ ¬ x = [] := fun x hx => hps x (by simp [hx])
      have hqn : ¬ joinDotL (q :: ps2) = [] := by
        obtain ⟨_, hq⟩ := hrest q (by simp)
        match q, hq, ps2 with
        | c :: r, _, [] => simp [joinDotL]
        | c :: r, _, x :: xs => simp [joinDotL]
      obtain ⟨c, r, hq⟩ : ∃ c r, joinDotL (q :: ps2) = c :: r := by
        match hj : joinDotL (q :: ps2), hqn with
        | c :: r, _ => exact ⟨c, r, rfl⟩
      show ¬ (p ++ '.' :: joinDotL (q :: ps2)).getLast? = some '.'
      rw [List.getLast?_append_of_ne_nil p (by simp), hq, List.getLast?_cons_cons, ← hq]
      exact ih (by simp) hrest

/-- **C9** (confirmed).  Rendering an OID joins the decimal components
with `.` — the empty OID renders as the empty string — and for every
non-empty OID of non-negative integers the rendered string has no
leading or trailing dot and splitting it on `.` and parsing each
component as a decimal integer reproduces the OID. -/
theorem c9_oid_string_roundtrip :
    oidToString [] = "" ∧
    (∀ oid : List Int, ¬ oid = [] → (∀ x ∈ oid, 0 ≤ x) →
      parseOidString (oidToString oid) = some oid ∧
      ¬ (oidToString oid).data.head? = some '.' ∧
      ¬ (oidToString oid).data.getLast? = some '.') := by
  constructor
  · rfl
  · intro oid hne hnn
    have hdata : (oidToString oid).data = joinDotL (oid.map intDecL) := rfl
    have hdotfree : ∀ p ∈ oid.map intDecL, '.' ∉ p := by
      intro p hp
      obtain ⟨x, hx, rfl⟩ := List.mem_map.mp hp
      rw [intDecL_nonneg x (hnn x hx)]
      exact fun hc => ((natDecL_chars _ '.' hc).2) rfl
    have hnonempty : ∀ p ∈ oid.map intDecL, ¬ p = [] := by
      intro p hp
      obtain ⟨x, hx, rfl⟩ := List.mem_map.mp hp
      rw [intDecL_nonneg x (hnn x hx)]
      exact natDecL_ne_nil _
    have hmapne : ¬ oid.map intDecL = [] := by
      match oid, hne with
      | x :: r, _ => simp
    refine ⟨?_, ?_, ?_⟩
    · unfold parseOidString
      rw [hdata, splitDot_joinDot (oid.map intDecL) hmapne hdotfree]
      have := mapOpt_map (fun p => (parseDecNat p).map Int.ofNat) intDecL (fun x => x)
        oid (fun x hx => parse_intDecL x (hnn x hx))
      simpa using this
    · rw [hdata]
      match oid, hne, hnn with
      | x :: r, _, hnn =>
        rw [List.map_cons, joinDot_head _ _ (by
          rw [intDecL_nonneg x (hnn x (by simp))]
          exact natDecL_ne_nil _)]
        rw [intDecL_nonneg x (hnn x (by simp))]
        intro hc
        have hm : '.' ∈ natDecL x.toNat := by
          match hnd : natDecL x.toNat, natDecL_ne_nil x.toNat with
          | c :: r2, _ =>
            rw [hnd] at hc
            simp at hc
            simp [hc]
        exact ((natDecL_chars _ '.' hm).2) rfl
    · rw [hdata]
      exact joinDot_getLast (oid.map intDecL) hmapne
        (fun p hp => ⟨hdotfree p hp, hnonempty p hp⟩)

/-- Closed witness for `c9_oid_string_roundtrip`: the OID `1.3.6.1.4.1`
renders and parses back. -/
theorem c9_oid_string_roundtrip_witness :
    parseOidString (oidToString [1, 3, 6, 1, 4, 1]) = some [1, 3, 6, 1, 4, 1] ∧
    ¬ (oidToString [1, 3, 6, 1, 4, 1]).data.head? = some '.' ∧
    ¬ (oidToString [1, 3, 6, 1, 4, 1]).data.getLast? = some '.' :=
  (c9_oid_string_roundtrip.2 [1, 3, 6, 1, 4, 1] (by decide) (by decide))

/-! ## C3 -/

/-- The declaration-key invariant the parser actually maintains: every
`objectsByName` key and every `objectIdentities` key has a `nodesByName`
entry, and so does the `moduleIdentity` name when present.
`notificationTypes` is deliberately absent: its keys can miss `nodesByName`
(see the counterexample). -/
def NodesInv (m : ModuleIR) : Prop :=
  (∀ k, containsKey k m.objectsByName = true → containsKey k m.nodesByName = true) ∧
  (∀ k, containsKey k m.objectIdentities = true → containsKey k m.nodesByName = true) ∧
  (∀ mi, m.moduleIdentity = some mi → containsKey mi.name m.nodesByName = true)

/-- Splitting a key-membership fact over an insertion. -/
theorem containsKey_insertA_cases {α : Type} {k k' : String} {v : α}
    {l : List (String × α)} (h : containsKey k (insertA k' v l) = true) :
    k' = k ∨ containsKey k l = true := by
  rw [containsKey_insertA] at h
  by_cases hkk : k' = k
  · exact Or.inl hkk
  · right
    simpa [hkk] using h

/-- Writes that only grow `nodesByName` keep the invariant. -/
theorem nodesInv_insert_nodes {m : ModuleIR} (n : String) (v : List Int)
    (h : NodesInv m) :
    NodesInv {m with nodesByName := insertA n v m.nodesByName} := by
  obtain ⟨h1, h2, h3⟩ := h
  exact ⟨fun k hk => containsKey_insertA_of _ _ (h1 k hk),
         fun k hk => containsKey_insertA_of _ _ (h2 k hk),
         fun mi hmi => containsKey_insertA_of _ _ (h3 mi hmi)⟩

/-- `ensureNode` keeps the invariant. -/
theorem nodesInv_ensureNode {m : ModuleIR} (n : String) (h : NodesInv m) :
    NodesInv (ensureNode n m) := by
  unfold ensureNode
  split
  · exact h
  · exact nodesInv_insert_nodes n [] h

/-- `ensureNode` keeps existing `nodesByName` keys. -/
theorem containsKey_ensureNode_of {m : ModuleIR} {k : String} (n : String)
    (h : containsKey k m.nodesByName = true) :
    containsKey k (ensureNode n m).nodesByName = true := by
  unfold ensureNode
  split
  · exact h
  · exact containsKey_insertA_of _ _ h

/-- Storing a resolved OBJECT-TYPE record keeps the invariant: the new
objects key gets its node entry in the same step. -/
theorem nodesInv_storeObjType {m : ModuleIR} (o : ObjectTypeIR) (h : NodesInv m) :
    NodesInv (storeObjType o m) := by
  obtain ⟨h1, h2, h3⟩ := h
  refine ⟨fun k hk => ?_, fun k hk => containsKey_insertA_of _ _ (h2 k hk),
          fun mi hmi => containsKey_insertA_of _ _ (h3 mi hmi)⟩
  rcases containsKey_insertA_cases hk with rfl | hk2
  · exact containsKey_insertA_self _ _ _
  · exact containsKey_insertA_of _ _ (h1 k hk2)

/-- Storing a resolved MODULE-IDENTITY record keeps the invariant. -/
theorem nodesInv_storeModId {m : ModuleIR} (r : ModuleIdentityIR) (h : NodesInv m) :
    NodesInv (storeModId r m) := by
  obtain ⟨h1, h2, h3⟩ := h
  refine ⟨fun k hk => containsKey_insertA_of _ _ (h1 k hk),
          fun k hk => containsKey_insertA_of _ _ (h2 k hk), fun mi hmi => ?_⟩
  have hr : r = mi := Option.some.inj hmi
  exact hr ▸ containsKey_insertA_self _ _ _

/-- Storing a resolved OBJECT-IDENTITY record keeps the invariant. -/
theorem nodesInv_storeObjIdentity {m : ModuleIR} (r : ObjectIdentityIR) (h : NodesInv m) :
    NodesInv (storeObjIdentity r m) := by
  obtain ⟨h1, h2, h3⟩ := h
  refine ⟨fun k hk => containsKey_insertA_of _ _ (h1 k hk), fun k hk => ?_,
          fun mi hmi => containsKey_insertA_of _ _ (h3 mi hmi)⟩
  rcases containsKey_insertA_cases hk with rfl | hk2
  · exact containsKey_insertA_self _ _ _
  · exact containsKey_insertA_of _ _ (h2 k hk2)

/-- Storing a NOTIFICATION-TYPE record touches none of the indexed
components of the invariant. -/
theorem nodesInv_storeNotif {m : ModuleIR} (r : NotificationTypeIR) (h : NodesInv m) :
    NodesInv (storeNotif r m) := by
  obtain ⟨h1, h2, h3⟩ := h
  exact ⟨h1, h2, h3⟩

/-- The deferred OBJECT-TYPE store (early record write plus placeholder
node) keeps the invariant. -/
theorem nodesInv_pendObjType {m : ModuleIR} (o : ObjectTypeIR) (h : NodesInv m) :
    NodesInv (ensureNode o.name
      {m with objectsByName := insertA o.name o m.objectsByName}) := by
  obtain ⟨h1, h2, h3⟩ := h
  unfold ensureNode
  split
  · rename_i hc
    refine ⟨fun k hk => ?_, h2, h3⟩
    rcases containsKey_insertA_cases hk with rfl | hk2
    · exact hc
    · exact h1 k hk2
  · refine ⟨fun k hk => ?_, fun k hk => containsKey_insertA_of _ _ (h2 k hk),
            fun mi hmi => containsKey_insertA_of _ _ (h3 mi hmi)⟩
    rcases containsKey_insertA_cases hk with rfl | hk2
    · exact containsKey_insertA_self _ _ _
    · exact containsKey_insertA_of _ _ (h1 k hk2)

/-- The deferred OBJECT-IDENTITY store of the regex sweep (record write
plus placeholder node) keeps the invariant. -/
theorem nodesInv_pendObjIdentity {m : ModuleIR} (r : ObjectIdentityIR) (h : NodesInv m) :
    NodesInv (ensureNode r.name
      {m with objectIdentities := insertA r.name r m.objectIdentities}) := by
  obtain ⟨h1, h2, h3⟩ := h
  unfold ensureNode
  split
  · rename_i hc
    refine ⟨h1, fun k hk => ?_, h3⟩
    rcases containsKey_insertA_cases hk with rfl | hk2
    · exact hc
    · exact h2 k hk2
  · refine ⟨fun k hk => containsKey_insertA_of _ _ (h1 k hk), fun k hk => ?_,
            fun mi hmi => containsKey_insertA_of _ _ (h3 mi hmi)⟩
    rcases containsKey_insertA_cases hk with rfl | hk2
    · exact containsKey_insertA_self _ _ _
    · exact containsKey_insertA_of _ _ (h2 k hk2)

/-- The deferred OBJECT-IDENTITY store of the parser keeps the invariant
if the name already has its (placeholder) node entry. -/
theorem nodesInv_pendObjId {m : ModuleIR} (r : ObjectIdentityIR) (h : NodesInv m)
    (hn : containsKey r.name m.nodesByName = true) :
    NodesInv {m with objectIdentities := insertA r.name r m.objectIdentities} := by
  obtain ⟨h1, h2, h3⟩ := h
  refine ⟨h1, fun k hk => ?_, h3⟩
  rcases containsKey_insertA_cases hk with rfl | hk2
  · exact hn
  · exact h2 k hk2

/-- The deferred MODULE-IDENTITY store keeps the invariant if the name
already has its (placeholder) node entry. -/
theorem nodesInv_pendModId {m : ModuleIR} (mi : ModuleIdentityIR) (h : NodesInv m)
    (hn : containsKey mi.name m.nodesByName = true) :
    NodesInv {m with moduleIdentity := some mi} := by
  obtain ⟨h1, h2, _⟩ := h
  refine ⟨h1, h2, fun mi2 hmi2 => ?_⟩
  have hr : mi = mi2 := Option.some.inj hmi2
  exact hr ▸ hn

/-- Firing any pending closure keeps the invariant: each closure couples
its record write with a node write (except the notification one, which
writes none of the indexed components). -/
theorem nodesInv_applyPend (pr : PendingRef) (base : List Int) {m : ModuleIR}
    (h : NodesInv m) : NodesInv (applyPend pr base m) := by
  unfold applyPend
  split
  · exact nodesInv_insert_nodes _ _ h
  · exact nodesInv_storeObjType _ h
  · exact nodesInv_storeModId _ h
  · exact nodesInv_storeObjIdentity _ h
  · exact nodesInv_storeNotif _ h

/-- One pass of the fixed-point loop keeps the invariant. -/
theorem resolvePass_inv : ∀ pend (m : ModuleIR), NodesInv m →
    NodesInv (resolvePass pend m).1 := by
  intro pend
  induction pend with
  | nil => intro m h; exact h
  | cons pr rest ih =>
    intro m h
    unfold resolvePass
    cases hl : lookupA pr.parent m.nodesByName with
    | some base =>
      dsimp only
      rcases hres : resolvePass rest (applyPend pr base m) with ⟨m9, rem, prog⟩
      have hih := ih (applyPend pr base m) (nodesInv_applyPend pr base h)
      rw [hres] at hih
      exact hih
    | none =>
      dsimp only
      rcases hres : resolvePass rest m with ⟨m9, rem, prog⟩
      have hih := ih m h
      rw [hres] at hih
      exact hih

/-- The whole fixed-point loop keeps the invariant. -/
theorem resolveLoop_inv : ∀ fuel pend (m : ModuleIR), NodesInv m →
    NodesInv (resolveLoop fuel pend m) := by
  intro fuel
  induction fuel with
  | zero => intro pend m h; exact h
  | succ fuel ih =>
    intro pend m h
    unfold resolveLoop
    cases pend with
    | nil => exact h
    | cons pr rest =>
      dsimp only
      rcases hres : resolvePass (pr :: rest) m with ⟨m9, rem, prog⟩
      have hm9 : NodesInv m9 := by
        have hp := resolvePass_inv (pr :: rest) m h
        rw [hres] at hp
        exact hp
      split
      · exact ih rem m9 hm9
      · exact hm9

/-- The `OBJECT IDENTIFIER` assignment keeps the invariant (it writes
`nodesByName` only). -/
theorem parseObjIdentifierDecl_inv : ∀ ident ts m pend ts9 m9 pend9,
    parseObjIdentifierDecl ident ts m pend = .ok (ts9, m9, pend9) →
    NodesInv m → NodesInv m9 := by
  intro ident ts m pend ts9 m9 pend9 h hinv
  unfold parseObjIdentifierDecl at h
  try dsimp only at h
  repeat' split at h
  all_goals first
    | exact Except.noConfusion h
    | (obtain ⟨rfl, rfl, rfl⟩ := by simpa only [Except.ok.injEq, Prod.mk.injEq] using h
       first
        | exact nodesInv_insert_nodes _ _ hinv
        | exact nodesInv_ensureNode _ hinv)

/-- The OBJECT-TYPE `::=` tail keeps the invariant. -/
theorem finishObjType_inv : ∀ obj ts m pend ts9 m9 pend9,
    finishObjType obj ts m pend = .ok (ts9, m9, pend9) →
    NodesInv m → NodesInv m9 := by
  intro obj ts m pend ts9 m9 pend9 h hinv
  unfold finishObjType at h
  try dsimp only at h
  repeat' split at h
  all_goals first
    | exact Except.noConfusion h
    | (obtain ⟨rfl, rfl, rfl⟩ := by simpa only [Except.ok.injEq, Prod.mk.injEq] using h
       first
        | exact nodesInv_storeObjType _ hinv
        | exact nodesInv_pendObjType _ hinv)

/-- The MODULE-IDENTITY `::=` tail keeps the invariant, given the entry
placeholder the handler already inserted for the name. -/
theorem finishModId_inv : ∀ mi ts m pend ts9 m9 pend9,
    finishModId mi ts m pend = .ok (ts9, m9, pend9) →
    NodesInv m → containsKey mi.name m.nodesByName = true → NodesInv m9 := by
  intro mi ts m pend ts9 m9 pend9 h hinv hn
  unfold finishModId at h
  try dsimp only at h
  repeat' split at h
  all_goals first
    | exact Except.noConfusion h
    | (obtain ⟨rfl, rfl, rfl⟩ := by simpa only [Except.ok.injEq, Prod.mk.injEq] using h
       first
        | exact nodesInv_storeModId _ hinv
        | exact nodesInv_pendModId _ hinv hn)

/-- The OBJECT-IDENTITY `::=` tail keeps the invariant, given the entry
placeholder the handler already inserted for the name. -/
theorem finishObjIdentity_inv : ∀ oi ts m pend ts9 m9 pend9,
    finishObjIdentity oi ts m pend = .ok (ts9, m9, pend9) →
    NodesInv m → containsKey oi.name m.nodesByName = true → NodesInv m9 := by
  intro oi ts m pend ts9 m9 pend9 h hinv hn
  unfold finishObjIdentity at h
  try dsimp only at h
  repeat' split at h
  all_goals first
    | exact Except.noConfusion h
    | (obtain ⟨rfl, rfl, rfl⟩ := by simpa only [Except.ok.injEq, Prod.mk.injEq] using h
       first
        | exact nodesInv_storeObjIdentity _ hinv
        | exact nodesInv_pendObjId _ hinv hn)

/-- The NOTIFICATION-TYPE `::=` tail keeps the invariant. -/
theorem finishNotif_inv : ∀ nt ts m pend ts9 m9 pend9,
    finishNotif nt ts m pend = .ok (ts9, m9, pend9) →
    NodesInv m → NodesInv m9 := by
  intro nt ts m pend ts9 m9 pend9 h hinv
  unfold finishNotif at h
  try dsimp only at h
  repeat' split at h
  all_goals first
    | exact Except.noConfusion h
    | (obtain ⟨rfl, rfl, rfl⟩ := by simpa only [Except.ok.injEq, Prod.mk.injEq] using h
       exact nodesInv_storeNotif _ hinv)

/-- The group-like `::=` tail keeps the invariant (`nodesByName` writes
only). -/
theorem finishGroup_inv : ∀ cname ident ts m pend ts9 m9 pend9,
    finishGroup cname ident ts m pend = .ok (ts9, m9, pend9) →
    NodesInv m → NodesInv m9 := by
  intro cname ident ts m pend ts9 m9 pend9 h hinv
  unfold finishGroup at h
  try dsimp only at h
  repeat' split at h
  all_goals first
    | exact Except.noConfusion h
    | (obtain ⟨rfl, rfl, rfl⟩ := by simpa only [Except.ok.injEq, Prod.mk.injEq] using h
       first
        | exact nodesInv_insert_nodes _ _ hinv
        | exact hinv)

/-- The TEXTUAL-CONVENTION loop keeps the invariant (it writes
`textualConventions` only). -/
theorem parseTCLoop_inv : ∀ fuel tc ts m pend ts9 m9 pend9,
    parseTCLoop fuel tc ts m pend = .ok (ts9, m9, pend9) →
    NodesInv m → NodesInv m9 := by
  intro fuel
  induction fuel with
  | zero => intro tc ts m pend ts9 m9 pend9 h hinv; exact Except.noConfusion h
  | succ fuel ih =>
    intro tc ts m pend ts9 m9 pend9 h hinv
    unfold parseTCLoop at h
    try dsimp only at h
    repeat' split at h
    all_goals first
      | exact Except.noConfusion h
      | exact ih _ _ _ _ _ _ _ h hinv
      | (obtain ⟨rfl, rfl, rfl⟩ := by simpa only [Except.ok.injEq, Prod.mk.injEq] using h
         exact ⟨hinv.1, hinv.2.1, hinv.2.2⟩)

/-- The OBJECT-TYPE clause loop keeps the invariant. -/
theorem parseObjectTypeLoop_inv : ∀ fuel obj ts m pend ts9 m9 pend9,
    parseObjectTypeLoop fuel obj ts m pend = .ok (ts9, m9, pend9) →
    NodesInv m → NodesInv m9 := by
  intro fuel
  induction fuel with
  | zero => intro obj ts m pend ts9 m9 pend9 h hinv; exact Except.noConfusion h
  | succ fuel ih =>
    intro obj ts m pend ts9 m9 pend9 h hinv
    unfold parseObjectTypeLoop at h
    try dsimp only at h
    repeat' split at h
    all_goals first
      | exact Except.noConfusion h
      | exact ih _ _ _ _ _ _ _ h hinv
      | exact finishObjType_inv _ _ _ _ _ _ _ h hinv

/-- The group-like clause loop keeps the invariant. -/
theorem parseGroupLoop_inv : ∀ cname ident fuel ts m pend ts9 m9 pend9,
    parseGroupLoop cname ident fuel ts m pend = .ok (ts9, m9, pend9) →
    NodesInv m → NodesInv m9 := by
  intro cname ident fuel
  induction fuel with
  | zero => intro ts m pend ts9 m9 pend9 h hinv; exact Except.noConfusion h
  | succ fuel ih =>
    intro ts m pend ts9 m9 pend9 h hinv
    unfold parseGroupLoop at h
    try dsimp only at h
    repeat' split at h
    all_goals first
      | exact Except.noConfusion h
      | exact ih _ _ _ _ _ _ h hinv
      | exact finishGroup_inv _ _ _ _ _ _ _ _ h hinv

/-- The MODULE-IDENTITY clause loop keeps the invariant, given the entry
placeholder for the record's name. -/
theorem parseModIdLoop_inv : ∀ fuel mi ts m pend ts9 m9 pend9,
    parseModIdLoop fuel mi ts m pend = .ok (ts9, m9, pend9) →
    NodesInv m → containsKey mi.name m.nodesByName = true → NodesInv m9 := by
  intro fuel
  induction fuel with
  | zero => intro mi ts m pend ts9 m9 pend9 h hinv hn; exact Except.noConfusion h
  | succ fuel ih =>
    intro mi ts m pend ts9 m9 pend9 h hinv hn
    unfold parseModIdLoop at h
    try dsimp only at h
    repeat' split at h
    all_goals first
      | exact Except.noConfusion h
      | exact ih _ _ _ _ _ _ _ h hinv hn
      | exact finishModId_inv _ _ _ _ _ _ _ h hinv hn

/-- The OBJECT-IDENTITY clause loop keeps the invariant, given the entry
placeholder for the record's name. -/
theorem parseObjIdentityLoop_inv : ∀ fuel oi ts m pend ts9 m9 pend9,
    parseObjIdentityLoop fuel oi ts m pend = .ok (ts9, m9, pend9) →
    NodesInv m → containsKey oi.name m.nodesByName = true → NodesInv m9 := by
  intro fuel
  induction fuel with
  | zero => intro oi ts m pend ts9 m9 pend9 h hinv hn; exact Except.noConfusion h
  | succ fuel ih =>
    intro oi ts m pend ts9 m9 pend9 h hinv hn
    unfold parseObjIdentityLoop at h
    try dsimp only at h
    repeat' split at h
    all_goals first
      | exact Except.noConfusion h
      | exact ih _ _ _ _ _ _ _ h hinv hn
      | exact finishObjIdentity_inv _ _ _ _ _ _ _ h hinv hn

/-- The NOTIFICATION-TYPE clause loop keeps the invariant. -/
theorem parseNotifLoop_inv : ∀ fuel nt ts m pend ts9 m9 pend9,
    parseNotifLoop fuel nt ts m pend = .ok (ts9, m9, pend9) →
    NodesInv m → NodesInv m9 := by
  intro fuel
  induction fuel with
  | zero => intro nt ts m pend ts9 m9 pend9 h hinv; exact Except.noConfusion h
  | succ fuel ih =>
    intro nt ts m pend ts9 m9 pend9 h hinv
    unfold parseNotifLoop at h
    try dsimp only at h
    repeat' split at h
    all_goals first
      | exact Except.noConfusion h
      | exact ih _ _ _ _ _ _ _ h hinv
      | exact finishNotif_inv _ _ _ _ _ _ _ h hinv

/-- The top-level construct dispatch keeps the invariant; the
MODULE-IDENTITY and OBJECT-IDENTITY branches get the placeholder
precondition from the `ensureNode` the handler performs on entry. -/
theorem dispatchTop_inv : ∀ idName ts m pend ts9 m9 pend9,
    dispatchTop idName ts m pend = .ok (ts9, m9, pend9) →
    NodesInv m → NodesInv m9 := by
  intro idName ts m pend ts9 m9 pend9 h hinv
  unfold dispatchTop at h
  try dsimp only at h
  by_cases c1 : isIdentTok (cur ts) ("MACRO") = true
  · rw [if_pos c1] at h
    obtain ⟨rfl, rfl, rfl⟩ := by simpa only [Except.ok.injEq, Prod.mk.injEq] using h
    exact hinv
  rw [if_neg c1] at h
  by_cases c2 : isIdentTok (cur ts) ("OBJECT") = true
  · rw [if_pos c2] at h
    exact parseObjIdentifierDecl_inv _ _ _ _ _ _ _ h hinv
  rw [if_neg c2] at h
  by_cases c3 : (cur ts).kind = TokKind.colonColonEq
  · rw [if_pos c3] at h
    by_cases c3b : isIdentTok (cur (adv ts)) ("TEXTUAL-CONVENTION") = true
    · rw [if_pos c3b] at h
      exact parseTCLoop_inv _ _ _ _ _ _ _ _ h hinv
    · rw [if_neg c3b] at h
      obtain ⟨rfl, rfl, rfl⟩ := by simpa only [Except.ok.injEq, Prod.mk.injEq] using h
      exact hinv
  rw [if_neg c3] at h
  by_cases c4 : isIdentTok (cur ts) ("OBJECT-TYPE") = true
  · rw [if_pos c4] at h
    exact parseObjectTypeLoop_inv _ _ _ _ _ _ _ _ h hinv
  rw [if_neg c4] at h
  by_cases c5 : isIdentTok (cur ts) ("OBJECT-GROUP") = true
  · rw [if_pos c5] at h
    exact parseGroupLoop_inv _ _ _ _ _ _ _ _ _ h hinv
  rw [if_neg c5] at h
  by_cases c6 : isIdentTok (cur ts) ("NOTIFICATION-GROUP") = true
  · rw [if_pos c6] at h
    exact parseGroupLoop_inv _ _ _ _ _ _ _ _ _ h hinv
  rw [if_neg c6] at h
  by_cases c7 : isIdentTok (cur ts) ("MODULE-COMPLIANCE") = true
  · rw [if_pos c7] at h
    exact parseGroupLoop_inv _ _ _ _ _ _ _ _ _ h hinv
  rw [if_neg c7] at h
  by_cases c8 : isIdentTok (cur ts) ("AGENT-CAPABILITIES") = true
  · rw [if_pos c8] at h
    exact parseGroupLoop_inv _ _ _ _ _ _ _ _ _ h hinv
  rw [if_neg c8] at h
  by_cases c9 : isIdentTok (cur ts) ("MODULE-IDENTITY") = true
  · rw [if_pos c9] at h
    exact parseModIdLoop_inv _ _ _ _ _ _ _ _ h (nodesInv_ensureNode _ hinv)
      (containsKey_ensureNode _ _)
  rw [if_neg c9] at h
  by_cases c10 : isIdentTok (cur ts) ("OBJECT-IDENTITY") = true
  · rw [if_pos c10] at h
    exact parseObjIdentityLoop_inv _ _ _ _ _ _ _ _ h (nodesInv_ensureNode _ hinv)
      (containsKey_ensureNode _ _)
  rw [if_neg c10] at h
  by_cases c11 : isIdentTok (cur ts) ("TEXTUAL-CONVENTION") = true
  · rw [if_pos c11] at h
    exact parseTCLoop_inv _ _ _ _ _ _ _ _ h hinv
  rw [if_neg c11] at h
  by_cases c12 : isIdentTok (cur ts) ("NOTIFICATION-TYPE") = true
  · rw [if_pos c12] at h
    exact parseNotifLoop_inv _ _ _ _ _ _ _ _ h hinv
  rw [if_neg c12] at h
  obtain ⟨rfl, rfl, rfl⟩ := by simpa only [Except.ok.injEq, Prod.mk.injEq] using h
  exact hinv

/-- Inverting a successful `stepOk`. -/
theorem stepOk_ok {r : PRes}
    {k : List Token → ModuleIR → List PendingRef → Except String (ModuleIR × List PendingRef)}
    {res : ModuleIR × List PendingRef} (h : stepOk r k = .ok res) :
    ∃ ts2 m2 p2, r = .ok (ts2, m2, p2) ∧ k ts2 m2 p2 = .ok res := by
  match r, h with
  | .error e, h => exact Except.noConfusion h
  | .ok (ts2, m2, p2), h => exact ⟨ts2, m2, p2, rfl, h⟩

/-- The module body loop keeps the invariant. -/
theorem parseBody_inv : ∀ fuel ts m pend m9 pend9,
    parseBody fuel ts m pend = .ok (m9, pend9) → NodesInv m → NodesInv m9 := by
  intro fuel
  induction fuel with
  | zero => intro ts m pend m9 pend9 h hinv; exact Except.noConfusion h
  | succ fuel ih =>
    intro ts m pend m9 pend9 h hinv
    unfold parseBody at h
    try dsimp only at h
    repeat' split at h
    all_goals first
      | exact Except.noConfusion h
      | (obtain ⟨rfl, rfl⟩ := by simpa only [Except.ok.injEq, Prod.mk.injEq] using h
         exact hinv)
      | exact ih _ _ _ _ _ h hinv
      | (obtain ⟨ts2, m2, p2, hd, hk⟩ := stepOk_ok h
         exact ih _ _ _ _ _ hk (dispatchTop_inv _ _ _ _ _ _ _ hd hinv))

/-- `parseModule` keeps the invariant: the header writes only the module
name, and the body loop and fixed-point pass keep it. -/
theorem parseModule_inv : ∀ fuel ts m m2,
    parseModule fuel ts m = .ok m2 → NodesInv m → NodesInv m2 := by
  intro fuel ts m m2 h hinv
  unfold parseModule at h
  try dsimp only at h
  repeat' split at h
  all_goals first
    | exact Except.noConfusion h
    | (rename_i mp pend2 heq
       obtain rfl : resolveLoop (pend2.length + 1) pend2 mp = m2 :=
         by simpa only [Except.ok.injEq] using h
       exact resolveLoop_inv _ _ _ (parseBody_inv _ _ _ _ _ _ heq hinv))

/-- A fold over module states keeps the invariant if each step does. -/
theorem foldl_inv {α : Type} (f : ModuleIR → α → ModuleIR)
    (hf : ∀ m a, NodesInv m → NodesInv (f m a)) :
    ∀ (l : List α) (m : ModuleIR), NodesInv m → NodesInv (l.foldl f m) := by
  intro l
  induction l with
  | nil => intro m h; exact h
  | cons a l ih => intro m h; exact ih (f m a) (hf m a h)

/-- One step of an `augNames` fold keeps the invariant whenever the
record insertion followed by the node placeholder does. -/
theorem augNames_step_inv (reserved : Bool) (addRecord : String → ModuleIR → ModuleIR)
    (hadd : ∀ (name : String) (mm : ModuleIR), NodesInv mm →
      NodesInv (ensureNode name (addRecord name mm))) :
    ∀ (mm : ModuleIR) (name : String), NodesInv mm →
      NodesInv (if reserved && isReservedName name then mm
        else ensureNode name (addRecord name mm)) := by
  intro mm name hm
  split
  · exact hm
  · exact hadd name mm hm

/-- The NOTIFICATION-TYPE sweep record insertion keeps the invariant (the
record index is not part of the invariant). -/
theorem augNotif_add_inv : ∀ (name : String) (mm : ModuleIR), NodesInv mm →
    NodesInv (ensureNode name
      (if containsKey name mm.notificationTypes then mm
       else {mm with notificationTypes := insertA name (newNotif name) mm.notificationTypes})) := by
  intro name mm hm
  split
  · exact nodesInv_ensureNode _ hm
  · exact nodesInv_ensureNode _ hm

/-- The OBJECT-IDENTITY sweep record insertion keeps the invariant. -/
theorem augObjIdentity_add_inv : ∀ (name : String) (mm : ModuleIR), NodesInv mm →
    NodesInv (ensureNode name
      (if containsKey name mm.objectIdentities then mm
       else {mm with objectIdentities := insertA name (newObjIdentity name) mm.objectIdentities})) := by
  intro name mm hm
  split
  · exact nodesInv_ensureNode _ hm
  · exact nodesInv_pendObjIdentity (newObjIdentity name) hm

/-- The OBJECT-TYPE sweep record insertion keeps the invariant. -/
theorem augObjType_add_inv : ∀ (name : String) (mm : ModuleIR), NodesInv mm →
    NodesInv (ensureNode name
      (if containsKey name mm.objectsByName then mm
       else {mm with objectsByName := insertA name (newObjType name) mm.objectsByName})) := by
  intro name mm hm
  split
  · exact nodesInv_ensureNode _ hm
  · exact nodesInv_pendObjType (newObjType name) hm

/-- The regex sweep keeps the invariant: each record placeholder it
inserts is followed by a node placeholder for the same name. -/
theorem augmentFromSource_inv (src : String) {m : ModuleIR} (h : NodesInv m) :
    NodesInv (augmentFromSource src m) := by
  unfold augmentFromSource augNames
  dsimp only
  refine foldl_inv _ ?_ _ _ (foldl_inv _ ?_ _ _ (foldl_inv _ ?_ _ _ (foldl_inv _ ?_ _ _ h)))
  · exact augNames_step_inv true
      (fun name mm => if containsKey name mm.notificationTypes then mm
        else {mm with notificationTypes := insertA name (newNotif name) mm.notificationTypes})
      augNotif_add_inv
  · exact augNames_step_inv true
      (fun name mm => if containsKey name mm.objectIdentities then mm
        else {mm with objectIdentities := insertA name (newObjIdentity name) mm.objectIdentities})
      augObjIdentity_add_inv
  · exact augNames_step_inv true
      (fun name mm => if containsKey name mm.objectsByName then mm
        else {mm with objectsByName := insertA name (newObjType name) mm.objectsByName})
      augObjType_add_inv
  · intro mm name hm
    exact nodesInv_ensureNode _ hm

/-- The bootstrap state has empty record indexes, so it satisfies the
invariant. -/
theorem initModule_inv : NodesInv initModule := by
  refine ⟨fun k hk => ?_, fun k hk => ?_, fun mi hmi => ?_⟩
  · simp [initModule, containsKey, lookupA] at hk
  · simp [initModule, containsKey, lookupA] at hk
  · simp [initModule] at hmi

set_option maxRecDepth 4000 in
/-- C3 counterexample: a NOTIFICATION-TYPE declared mid-line is stored in
`notificationTypes` by the token parser, but no branch of that handler
writes `nodesByName`, and the line-anchored regex sweep misses it — so the
parse succeeds with `foo` a `notificationTypes` key that is not a
`nodesByName` key. -/
theorem c3_counterexample :
    (Parse srcNotifMidLine).map
      (fun m => (containsKey ("foo") m.notificationTypes,
                 containsKey ("foo") m.nodesByName)) = .ok (true, false) := by
  rfl

/-- **C3** (corrected).  In every successfully parsed module, every key of
the objects index, every key of the objectIdentities index, and the name
of the moduleIdentity record when present, is also a key of the nodes
index; keys of the notificationTypes index, however, need not be (see the
counterexample). -/
theorem c3_amended : ∀ src m, Parse src = .ok m → NodesInv m := by
  intro src m h
  unfold Parse at h
  try dsimp only at h
  repeat' split at h
  all_goals first
    | exact Except.noConfusion h
    | (rename_i m0 heq
       obtain rfl : augmentFromSource src m0 = m :=
         by simpa only [Except.ok.injEq] using h
       exact augmentFromSource_inv src (parseModule_inv _ _ _ _ heq initModule_inv))

/-- The module the parser produces for the minimal empty module. -/
def mMinimal : ModuleIR :=
  {name := "FOO", nodesByName := baseOids, objectsByName := [], moduleIdentity := none,
   objectIdentities := [], textualConventions := [], notificationTypes := []}

set_option maxRecDepth 4000 in
/-- Closed witness for `c3_amended`: the minimal module parses
successfully and its result satisfies the declaration-key invariant. -/
theorem c3_amended_witness : NodesInv mMinimal :=
  c3_amended srcMinimal mMinimal (by rfl)

end MibSpec
